import Mathlib

/-!
Verification of the request-time decision logic of the Cassis web server for
Calibre (source: `src/cassis/index.js`).

Strings are modelled as `List Char` (the JS string of the controller code).
`Char.toLower` models `String.prototype.toLowerCase` on the basic-latin
range, which is the range the controller's search strings exercise.

Each section embeds one helper or action of the controller, translated from
the JavaScript source; definitions whose doc comment says `Spec reading:`
instead follow the wording of the natural-language specification and are
compared with the source-derived ones.
-/

/- ================================================================
   Section 1: the search-string tokenizer (`searchStringToArray`)

   const whitespace_chars = /[\/\,\.\|\ \*\?\!\:\;\(\)\[\]\&\"\+]+/g;
   const whitespace_char01 = String.fromCharCode(172);
   function searchStringToArray(s) {
     return s.trim().toLowerCase().replaceAll(whitespace_char01, " ")
             .replaceAll(whitespace_chars, " ").replaceAll("'", "''")
             .split(" ")
   }
   ================================================================ -/

/-- The character class of the regex `whitespace_chars` in the source. -/
def sepChars : List Char :=
  ['/', ',', '.', '|', ' ', '*', '?', '!', ':', ';', '(', ')', '[', ']', '&', '"', '+']

/-- Membership in the regex character class. -/
def isSep (c : Char) : Bool := decide (c ∈ sepChars)

/-- `String.fromCharCode(172)`, the alternate word-separator character. -/
def altSepChar : Char := Char.ofNat 172

/-- The single-quote character (code 39). -/
def squote : Char := Char.ofNat 39

/-- Code points removed by `String.prototype.trim` (ECMAScript WhiteSpace
and LineTerminator). -/
def jsWhiteCodes : List Nat :=
  [9, 10, 11, 12, 13, 32, 160, 0x1680, 0x2000, 0x2001, 0x2002, 0x2003, 0x2004,
   0x2005, 0x2006, 0x2007, 0x2008, 0x2009, 0x200A, 0x2028, 0x2029, 0x202F,
   0x205F, 0x3000, 0xFEFF]

/-- Is `c` trimmed by `String.prototype.trim`? -/
def isJsWhite (c : Char) : Bool := decide (c.toNat ∈ jsWhiteCodes)

/-- `s.trim()`: drop JS whitespace from both ends. -/
def trimL (l : List Char) : List Char :=
  ((l.dropWhile isJsWhite).reverse.dropWhile isJsWhite).reverse

/-- `s.toLowerCase()` (basic-latin model). -/
def toLowerL (l : List Char) : List Char := l.map Char.toLower

/-- `s.replaceAll(whitespace_char01, " ")`. -/
def replaceAltSep (l : List Char) : List Char :=
  l.map (fun c => if c = altSepChar then ' ' else c)

/-- `s.replaceAll(whitespace_chars, " ")`: each maximal run of characters of
the class is replaced by a single space.  The boolean flag records whether
the previous character belonged to the class (i.e. we are inside a run). -/
def collapseAux : List Char → Bool → List Char
  | [], _ => []
  | c :: cs, true =>
    if isSep c then collapseAux cs true else c :: collapseAux cs false
  | c :: cs, false =>
    if isSep c then ' ' :: collapseAux cs true else c :: collapseAux cs false

/-- The global regex replacement `s.replaceAll(whitespace_chars, " ")`. -/
def collapseSeps (l : List Char) : List Char := collapseAux l false

/-- `s.replaceAll("'", "''")`. -/
def doubleQuotes : List Char → List Char
  | [] => []
  | c :: cs => if c = squote then c :: c :: doubleQuotes cs else c :: doubleQuotes cs

/-- `s.split(" ")` (JS semantics: the empty string yields one empty field,
adjacent separators yield empty fields). -/
def splitSp : List Char → List (List Char)
  | [] => [[]]
  | c :: cs =>
    if c = ' ' then [] :: splitSp cs
    else
      match splitSp cs with
      | [] => [[c]]
      | t :: ts => (c :: t) :: ts

/-- `array.join(" ")`. -/
def joinSp : List (List Char) → List Char
  | [] => []
  | [t] => t
  | t :: t₂ :: ts => t ++ ' ' :: joinSp (t₂ :: ts)

/-- The full normalisation chain of `searchStringToArray` before the split. -/
def normalizeSearch (l : List Char) : List Char :=
  doubleQuotes (collapseSeps (replaceAltSep (toLowerL (trimL l))))

/-- `searchStringToArray` from the source:
`s.trim().toLowerCase().replaceAll(chr172, " ").replaceAll(class, " ")
  .replaceAll(squote, squote squote).split(" ")`. -/
def tokenizeL (l : List Char) : List (List Char) :=
  splitSp (normalizeSearch l)

/-- `searchStringToArray` lifted to `String`. -/
def searchTokens (s : String) : List String :=
  (tokenizeL s.data).map String.mk

/- ================================================================
   Spec reading of the tokenizer pipeline (claim C8).

   The specification describes the pipeline as: lowercase, convert the
   alternate word-separator character to a space, collapse the
   punctuation/whitespace character class to single spaces, double single
   quotes, then split on spaces.  (It does not mention the initial trim.)
   "Collapse to single spaces" is rendered independently of the source:
   first map every class character to a space, then squash runs of spaces.
   ================================================================ -/

/-- Spec reading: squash each run of spaces to a single space. -/
def squashSpacesAux : List Char → Bool → List Char
  | [], _ => []
  | c :: cs, true =>
    if c = ' ' then squashSpacesAux cs true else c :: squashSpacesAux cs false
  | c :: cs, false =>
    if c = ' ' then ' ' :: squashSpacesAux cs true else c :: squashSpacesAux cs false

/-- Spec reading: a character of the class becomes a space. -/
def sepToSpace (c : Char) : Char := if isSep c then ' ' else c

/-- Spec reading: the character class is collapsed to single spaces. -/
def specCollapse (l : List Char) : List Char :=
  squashSpacesAux (l.map sepToSpace) false

/-- Spec reading of claim C8, word for word: lowercase, alternate separator
to space, collapse class to single spaces, double quotes, split on spaces
(no trim step). -/
def specTokenizeL (l : List Char) : List (List Char) :=
  splitSp (doubleQuotes (specCollapse (replaceAltSep (toLowerL l))))

/-- Spec reading of claim C8 amended with the initial `trim` that the
source performs. -/
def specTokenizeTrimL (l : List Char) : List (List Char) :=
  splitSp (doubleQuotes (specCollapse (replaceAltSep (toLowerL (trimL l)))))

lemma isSep_space : isSep ' ' = true := by decide

lemma collapseAux_eq_squash (l : List Char) :
    ∀ b, collapseAux l b = squashSpacesAux (l.map sepToSpace) b := by
  induction l with
  | nil => intro b; rfl
  | cons c cs ih =>
    intro b
    by_cases hs : isSep c
    · have hsp : sepToSpace c = ' ' := by simp [sepToSpace, hs]
      cases b <;> simp [collapseAux, squashSpacesAux, hs, hsp, ih]
    · have hne : c ≠ ' ' := by
        intro h; subst h; exact hs isSep_space
      have hsp : sepToSpace c = c := by simp [sepToSpace, hs]
      cases b <;> simp [collapseAux, squashSpacesAux, hs, hsp, hne, ih]

lemma collapseSeps_eq_specCollapse (l : List Char) :
    collapseSeps l = specCollapse l :=
  collapseAux_eq_squash l false

/- ================================================================
   Character-level facts used by the tokenizer proofs.
   ================================================================ -/

lemma toNat_ofNat_of_lt {n : Nat} (h : n < 55296) : (Char.ofNat n).toNat = n := by
  have hv : n.isValidChar := Or.inl h
  simp only [Char.ofNat, hv, dite_true]
  rfl

lemma toLower_toNat_of_upper {c : Char} (h65 : 65 ≤ c.toNat) (h90 : c.toNat ≤ 90) :
    (Char.toLower c).toNat = c.toNat + 32 := by
  have : Char.toLower c = Char.ofNat (c.toNat + 32) := by
    simp only [Char.toLower]
    rw [if_pos ⟨h65, h90⟩]
  rw [this]
  exact toNat_ofNat_of_lt (by omega)

lemma toLower_of_not_upper {c : Char} (h : ¬(65 ≤ c.toNat ∧ c.toNat ≤ 90)) :
    Char.toLower c = c := by
  simp only [Char.toLower]
  rw [if_neg h]

lemma toLower_idem (c : Char) : Char.toLower (Char.toLower c) = Char.toLower c := by
  by_cases h : 65 ≤ c.toNat ∧ c.toNat ≤ 90
  · have ht : (Char.toLower c).toNat = c.toNat + 32 := toLower_toNat_of_upper h.1 h.2
    apply toLower_of_not_upper
    omega
  · rw [toLower_of_not_upper h, toLower_of_not_upper h]

lemma isJsWhite_toLower {c : Char} (h : isJsWhite (Char.toLower c) = true) :
    isJsWhite c = true := by
  by_cases hu : 65 ≤ c.toNat ∧ c.toNat ≤ 90
  · exfalso
    have ht : (Char.toLower c).toNat = c.toNat + 32 := toLower_toNat_of_upper hu.1 hu.2
    simp only [isJsWhite, decide_eq_true_eq, ht, jsWhiteCodes, List.mem_cons,
      List.not_mem_nil, or_false] at h
    omega
  · rwa [toLower_of_not_upper hu] at h

/- ================================================================
   Structural lemmas about the tokenizer stages.
   ================================================================ -/


/- ================================================================
   Structural lemmas about the tokenizer stages.
   ================================================================ -/

lemma getLast?_cons_of_ne_nil {α : Type} {a : α} {l : List α} (h : l ≠ []) :
    (a :: l).getLast? = l.getLast? := by
  cases l with
  | nil => exact absurd rfl h
  | cons b bs => exact List.getLast?_cons_cons

lemma mem_doubleQuotes {c : Char} : ∀ {l : List Char}, c ∈ doubleQuotes l → c ∈ l := by
  intro l
  induction l with
  | nil => intro h; simp [doubleQuotes] at h
  | cons d ds ih =>
    intro h
    simp only [doubleQuotes] at h
    by_cases hd : d = squote
    · rw [if_pos hd] at h
      rcases List.mem_cons.mp h with rfl | h
      · exact List.mem_cons_self _ _
      · rcases List.mem_cons.mp h with rfl | h
        · exact List.mem_cons_self _ _
        · exact List.mem_cons_of_mem _ (ih h)
    · rw [if_neg hd] at h
      rcases List.mem_cons.mp h with rfl | h
      · exact List.mem_cons_self _ _
      · exact List.mem_cons_of_mem _ (ih h)

lemma mem_collapseAux {c : Char} :
    ∀ {l : List Char} {b : Bool}, c ∈ collapseAux l b →
      c = ' ' ∨ (c ∈ l ∧ isSep c = false) := by
  intro l
  induction l with
  | nil => intro b h; cases b <;> simp [collapseAux] at h
  | cons d ds ih =>
    intro b h
    cases b with
    | true =>
      simp only [collapseAux] at h
      by_cases hd : isSep d
      · rw [if_pos hd] at h
        rcases ih h with h' | h'
        · exact Or.inl h'
        · exact Or.inr ⟨List.mem_cons_of_mem _ h'.1, h'.2⟩
      · rw [if_neg hd] at h
        rcases List.mem_cons.mp h with rfl | h
        · exact Or.inr ⟨List.mem_cons_self _ _, by simp at hd; exact hd⟩
        · rcases ih h with h' | h'
          · exact Or.inl h'
          · exact Or.inr ⟨List.mem_cons_of_mem _ h'.1, h'.2⟩
    | false =>
      simp only [collapseAux] at h
      by_cases hd : isSep d
      · rw [if_pos hd] at h
        rcases List.mem_cons.mp h with rfl | h
        · exact Or.inl rfl
        · rcases ih h with h' | h'
          · exact Or.inl h'
          · exact Or.inr ⟨List.mem_cons_of_mem _ h'.1, h'.2⟩
      · rw [if_neg hd] at h
        rcases List.mem_cons.mp h with rfl | h
        · exact Or.inr ⟨List.mem_cons_self _ _, by simpa using hd⟩
        · rcases ih h with h' | h'
          · exact Or.inl h'
          · exact Or.inr ⟨List.mem_cons_of_mem _ h'.1, h'.2⟩

lemma head?_doubleQuotes (l : List Char) : (doubleQuotes l).head? = l.head? := by
  cases l with
  | nil => rfl
  | cons d ds =>
    simp only [doubleQuotes]
    by_cases hd : d = squote
    · rw [if_pos hd]; rfl
    · rw [if_neg hd]; rfl

lemma doubleQuotes_ne_nil {l : List Char} (h : l ≠ []) : doubleQuotes l ≠ [] := by
  cases l with
  | nil => exact absurd rfl h
  | cons d ds =>
    simp only [doubleQuotes]
    by_cases hd : d = squote
    · rw [if_pos hd]; simp
    · rw [if_neg hd]; simp

lemma getLast?_doubleQuotes : ∀ (l : List Char), (doubleQuotes l).getLast? = l.getLast? := by
  intro l
  induction l with
  | nil => rfl
  | cons d ds ih =>
    cases hds : ds with
    | nil =>
      simp only [doubleQuotes]
      by_cases hd : d = squote
      · rw [if_pos hd]; rfl
      · rw [if_neg hd]
    | cons e es =>
      have hne : ds ≠ [] := by rw [hds]; simp
      have hdq : doubleQuotes ds ≠ [] := doubleQuotes_ne_nil hne
      rw [← hds]
      simp only [doubleQuotes]
      by_cases hd : d = squote
      · rw [if_pos hd, List.getLast?_cons_cons, getLast?_cons_of_ne_nil hdq, ih,
          getLast?_cons_of_ne_nil hne]
      · rw [if_neg hd, getLast?_cons_of_ne_nil hdq, ih, getLast?_cons_of_ne_nil hne]

lemma head?_collapseSeps {l : List Char} {c : Char}
    (h : (collapseAux l false).head? = some c) (hc : c ≠ ' ') :
    l.head? = some c ∧ isSep c = false := by
  cases l with
  | nil => simp [collapseAux] at h
  | cons d ds =>
    simp only [collapseAux] at h
    by_cases hd : isSep d
    · rw [if_pos hd] at h
      simp only [List.head?_cons, Option.some.injEq] at h
      exact absurd h.symm hc
    · rw [if_neg hd] at h
      simp only [List.head?_cons, Option.some.injEq] at h
      subst h
      exact ⟨rfl, by simpa using hd⟩

lemma collapseAux_false_eq_nil {l : List Char} (h : collapseAux l false = []) : l = [] := by
  cases l with
  | nil => rfl
  | cons d ds =>
    simp only [collapseAux] at h
    by_cases hd : isSep d
    · rw [if_pos hd] at h; simp at h
    · rw [if_neg hd] at h; simp at h

lemma getLast?_collapseAux {c : Char} (hc : c ≠ ' ') :
    ∀ {l : List Char} {b : Bool}, (collapseAux l b).getLast? = some c →
      l.getLast? = some c ∧ isSep c = false := by
  intro l
  induction l with
  | nil => intro b h; cases b <;> simp [collapseAux] at h
  | cons d ds ih =>
    intro b h
    have step : ∀ {b' : Bool}, (collapseAux ds b').getLast? = some c →
        (d :: ds).getLast? = some c ∧ isSep c = false := by
      intro b' h'
      have hds : ds ≠ [] := by
        intro hnil
        subst hnil
        cases b' <;> simp [collapseAux] at h'
      rcases ih h' with ⟨h₁, h₂⟩
      exact ⟨by rw [getLast?_cons_of_ne_nil hds]; exact h₁, h₂⟩
    cases b with
    | true =>
      simp only [collapseAux] at h
      by_cases hd : isSep d
      · rw [if_pos hd] at h
        exact step h
      · rw [if_neg hd] at h
        cases hX : collapseAux ds false with
        | nil =>
          have : ds = [] := collapseAux_false_eq_nil hX
          subst this
          rw [hX] at h
          simp only [List.getLast?_singleton, Option.some.injEq] at h
          subst h
          exact ⟨rfl, by simp at hd; exact hd⟩
        | cons y ys =>
          rw [hX, getLast?_cons_of_ne_nil (by simp), ← hX] at h
          exact step h
    | false =>
      simp only [collapseAux] at h
      by_cases hd : isSep d
      · rw [if_pos hd] at h
        cases hX : collapseAux ds true with
        | nil =>
          rw [hX] at h
          simp only [List.getLast?_singleton, Option.some.injEq] at h
          exact absurd h.symm hc
        | cons y ys =>
          rw [hX, getLast?_cons_of_ne_nil (by simp), ← hX] at h
          have h' := ih h
          have hds : ds ≠ [] := by
            intro hnil
            subst hnil
            simp [collapseAux] at hX
          exact ⟨by rw [getLast?_cons_of_ne_nil hds]; exact h'.1, h'.2⟩
      · rw [if_neg hd] at h
        cases hX : collapseAux ds false with
        | nil =>
          have : ds = [] := collapseAux_false_eq_nil hX
          subst this
          rw [hX] at h
          simp only [List.getLast?_singleton, Option.some.injEq] at h
          subst h
          exact ⟨rfl, by simp at hd; exact hd⟩
        | cons y ys =>
          rw [hX, getLast?_cons_of_ne_nil (by simp), ← hX] at h
          exact step h

lemma head?_dropWhile_not {p : Char → Bool} :
    ∀ {l : List Char} {c : Char}, (l.dropWhile p).head? = some c → p c = false := by
  intro l
  induction l with
  | nil => intro c h; simp [List.dropWhile] at h
  | cons d ds ih =>
    intro c h
    rw [List.dropWhile_cons] at h
    by_cases hd : p d
    · rw [if_pos hd] at h
      exact ih h
    · rw [if_neg hd] at h
      simp only [List.head?_cons, Option.some.injEq] at h
      subst h
      simpa using hd

lemma getLast?_dropWhile {p : Char → Bool} :
    ∀ {l : List Char}, l.dropWhile p ≠ [] → (l.dropWhile p).getLast? = l.getLast? := by
  intro l
  induction l with
  | nil => intro h; simp [List.dropWhile] at h
  | cons d ds ih =>
    intro h
    rw [List.dropWhile_cons] at h ⊢
    by_cases hd : p d
    · rw [if_pos hd] at h ⊢
      have hds : ds ≠ [] := by
        intro hnil
        subst hnil
        simp [List.dropWhile] at h
      rw [ih h, getLast?_cons_of_ne_nil hds]
    · rw [if_neg hd]

lemma dropWhile_eq_self_of_head {p : Char → Bool} {l : List Char}
    (h : ∀ c, l.head? = some c → p c = false) : l.dropWhile p = l := by
  cases l with
  | nil => rfl
  | cons d ds =>
    rw [List.dropWhile_cons, if_neg]
    simp [h d rfl]

lemma trimL_head_not_white {l : List Char} {c : Char}
    (h : (trimL l).head? = some c) : isJsWhite c = false := by
  rw [trimL, List.head?_reverse] at h
  have hne : (l.dropWhile isJsWhite).reverse.dropWhile isJsWhite ≠ [] := by
    intro hnil
    rw [hnil] at h
    simp at h
  rw [getLast?_dropWhile hne, List.getLast?_reverse] at h
  exact head?_dropWhile_not h

lemma trimL_getLast_not_white {l : List Char} {c : Char}
    (h : (trimL l).getLast? = some c) : isJsWhite c = false := by
  rw [trimL, List.getLast?_reverse] at h
  exact head?_dropWhile_not h

lemma trimL_eq_self {l : List Char}
    (h1 : ∀ c, l.head? = some c → isJsWhite c = false)
    (h2 : ∀ c, l.getLast? = some c → isJsWhite c = false) : trimL l = l := by
  rw [trimL, dropWhile_eq_self_of_head h1, dropWhile_eq_self_of_head ?hrev,
    List.reverse_reverse]
  case hrev =>
    intro c hc
    rw [List.head?_reverse] at hc
    exact h2 c hc

lemma splitSp_ne_nil : ∀ (l : List Char), splitSp l ≠ [] := by
  intro l
  cases l with
  | nil => simp [splitSp]
  | cons c cs =>
    simp only [splitSp]
    by_cases hc : c = ' '
    · rw [if_pos hc]; simp
    · rw [if_neg hc]
      cases h : splitSp cs <;> simp

lemma splitSp_eq_single_nil : ∀ {l : List Char}, splitSp l = [[]] → l = [] := by
  intro l h
  cases l with
  | nil => rfl
  | cons c cs =>
    simp only [splitSp] at h
    by_cases hc : c = ' '
    · rw [if_pos hc] at h
      simp only [List.cons.injEq] at h
      exact absurd h.2 (splitSp_ne_nil cs)
    · rw [if_neg hc] at h
      cases hX : splitSp cs with
      | nil => exact absurd hX (splitSp_ne_nil cs)
      | cons t ts =>
        rw [hX] at h
        simp at h

lemma splitSp_no_space : ∀ {l t : List Char}, t ∈ splitSp l → ' ' ∉ t := by
  intro l
  induction l with
  | nil =>
    intro t ht
    simp only [splitSp, List.mem_singleton] at ht
    subst ht; simp
  | cons c cs ih =>
    intro t ht
    simp only [splitSp] at ht
    by_cases hc : c = ' '
    · rw [if_pos hc] at ht
      rcases List.mem_cons.mp ht with rfl | ht
      · simp
      · exact ih ht
    · rw [if_neg hc] at ht
      cases hX : splitSp cs with
      | nil => exact absurd hX (splitSp_ne_nil cs)
      | cons t₀ ts₀ =>
        rw [hX] at ht
        rcases List.mem_cons.mp ht with rfl | ht
        · intro hsp
          rcases List.mem_cons.mp hsp with h' | h'
          · exact hc h'.symm
          · exact ih (hX ▸ List.mem_cons_self t₀ ts₀) h'
        · exact ih (hX ▸ List.mem_cons_of_mem t₀ ht)

lemma mem_of_mem_splitSp {c : Char} : ∀ {l t : List Char}, t ∈ splitSp l → c ∈ t → c ∈ l := by
  intro l
  induction l with
  | nil =>
    intro t ht hc
    simp only [splitSp, List.mem_singleton] at ht
    subst ht; simp at hc
  | cons d cs ih =>
    intro t ht hc
    simp only [splitSp] at ht
    by_cases hd : d = ' '
    · rw [if_pos hd] at ht
      rcases List.mem_cons.mp ht with rfl | ht
      · simp at hc
      · exact List.mem_cons_of_mem _ (ih ht hc)
    · rw [if_neg hd] at ht
      cases hX : splitSp cs with
      | nil => exact absurd hX (splitSp_ne_nil cs)
      | cons t₀ ts₀ =>
        rw [hX] at ht
        rcases List.mem_cons.mp ht with rfl | ht
        · rcases List.mem_cons.mp hc with rfl | hc
          · exact List.mem_cons_self _ _
          · exact List.mem_cons_of_mem _ (ih (hX ▸ List.mem_cons_self t₀ ts₀) hc)
        · exact List.mem_cons_of_mem _ (ih (hX ▸ List.mem_cons_of_mem t₀ ht) hc)

lemma splitSp_head : ∀ {l t : List Char} {ts : List (List Char)},
    splitSp l = t :: ts → t ≠ [] → t.head? = l.head? := by
  intro l t ts h ht
  cases l with
  | nil =>
    simp only [splitSp, List.cons.injEq] at h
    exact absurd h.1.symm ht
  | cons c cs =>
    simp only [splitSp] at h
    by_cases hc : c = ' '
    · rw [if_pos hc] at h
      simp only [List.cons.injEq] at h
      exact absurd h.1.symm ht
    · rw [if_neg hc] at h
      cases hX : splitSp cs with
      | nil => exact absurd hX (splitSp_ne_nil cs)
      | cons t₀ ts₀ =>
        rw [hX] at h
        simp only [List.cons.injEq] at h
        rw [← h.1]
        rfl

lemma splitSp_getLast : ∀ {l : List Char} {tk : List Char},
    (splitSp l).getLast? = some tk → tk ≠ [] → tk.getLast? = l.getLast? := by
  intro l
  induction l with
  | nil =>
    intro tk h htk
    simp only [splitSp] at h
    simp only [List.getLast?_singleton, Option.some.injEq] at h
    exact absurd h.symm htk
  | cons c cs ih =>
    intro tk h htk
    simp only [splitSp] at h
    by_cases hc : c = ' '
    · rw [if_pos hc] at h
      rw [getLast?_cons_of_ne_nil (splitSp_ne_nil cs)] at h
      have hcs : cs ≠ [] := by
        intro hnil
        subst hnil
        simp only [splitSp, List.getLast?_singleton, Option.some.injEq] at h
        exact htk h.symm
      rw [ih h htk, getLast?_cons_of_ne_nil hcs]
    · rw [if_neg hc] at h
      cases hX : splitSp cs with
      | nil => exact absurd hX (splitSp_ne_nil cs)
      | cons t₀ ts₀ =>
        rw [hX] at h
        cases ts₀ with
        | nil =>
          simp only [List.getLast?_singleton, Option.some.injEq] at h
          subst h
          cases ht₀ : t₀ with
          | nil =>
            have hcs : cs = [] := splitSp_eq_single_nil (ht₀ ▸ hX)
            subst hcs
            rfl
          | cons x xs =>
            have ht₀ne : t₀ ≠ [] := by rw [ht₀]; simp
            have h' : (splitSp cs).getLast? = some t₀ := by rw [hX]; rfl
            have hcs : cs ≠ [] := by
              intro hnil
              subst hnil
              simp only [splitSp, List.cons.injEq] at hX
              exact ht₀ne hX.1.symm
            rw [← ht₀, getLast?_cons_of_ne_nil ht₀ne, ih h' ht₀ne,
              getLast?_cons_of_ne_nil hcs]
        | cons t₁ ts₁ =>
          rw [getLast?_cons_of_ne_nil (by simp)] at h
          have h' : (splitSp cs).getLast? = some tk := by
            rw [hX, getLast?_cons_of_ne_nil (by simp)]
            exact h
          have hcs : cs ≠ [] := by
            intro hnil
            subst hnil
            simp only [splitSp, List.cons.injEq] at hX
            simp at hX
          rw [ih h' htk, getLast?_cons_of_ne_nil hcs]

lemma joinSp_cons_cons (t t₂ : List Char) (ts : List (List Char)) :
    joinSp (t :: t₂ :: ts) = t ++ ' ' :: joinSp (t₂ :: ts) := rfl

lemma mem_joinSp {c : Char} : ∀ {ts : List (List Char)},
    c ∈ joinSp ts → c = ' ' ∨ ∃ t ∈ ts, c ∈ t := by
  intro ts
  induction ts with
  | nil => intro h; simp [joinSp] at h
  | cons t ts ih =>
    intro h
    cases ts with
    | nil =>
      right
      exact ⟨t, List.mem_cons_self _ _, by simpa [joinSp] using h⟩
    | cons t₂ ts₂ =>
      rw [joinSp_cons_cons] at h
      rcases List.mem_append.mp h with h | h
      · right; exact ⟨t, List.mem_cons_self _ _, h⟩
      · rcases List.mem_cons.mp h with rfl | h
        · exact Or.inl rfl
        · rcases ih h with h' | ⟨t', ht', hc⟩
          · exact Or.inl h'
          · exact Or.inr ⟨t', List.mem_cons_of_mem _ ht', hc⟩

lemma joinSp_ne_nil {t : List Char} {ts : List (List Char)} (h : t ≠ []) :
    joinSp (t :: ts) ≠ [] := by
  cases ts with
  | nil => simpa [joinSp] using h
  | cons t₂ ts₂ =>
    rw [joinSp_cons_cons]
    simp

lemma joinSp_head {t : List Char} {ts : List (List Char)} (h : t ≠ []) :
    (joinSp (t :: ts)).head? = t.head? := by
  cases ts with
  | nil => rfl
  | cons t₂ ts₂ =>
    rw [joinSp_cons_cons]
    exact List.head?_append_of_ne_nil _ h

lemma joinSp_getLast : ∀ {ts : List (List Char)} {tk : List Char},
    ts.getLast? = some tk → tk ≠ [] → (joinSp ts).getLast? = tk.getLast? := by
  intro ts
  induction ts with
  | nil => intro tk h htk; simp at h
  | cons t ts ih =>
    intro tk h htk
    cases ts with
    | nil =>
      simp only [List.getLast?_singleton, Option.some.injEq] at h
      subst h
      rfl
    | cons t₂ ts₂ =>
      rw [getLast?_cons_of_ne_nil (by simp)] at h
      rw [joinSp_cons_cons, List.getLast?_append_of_ne_nil _ (by simp)]
      cases hJ : joinSp (t₂ :: ts₂) with
      | nil =>
        exfalso
        cases ts₂ with
        | nil =>
          simp only [List.getLast?_singleton, Option.some.injEq] at h
          subst h
          simp only [joinSp] at hJ
          exact htk hJ
        | cons t₃ ts₃ =>
          rw [joinSp_cons_cons] at hJ
          simp at hJ
      | cons y ys =>
        rw [getLast?_cons_of_ne_nil (by simp), ← hJ]
        exact ih h htk

lemma map_eq_self_of {f : Char → Char} :
    ∀ {l : List Char}, (∀ c ∈ l, f c = c) → l.map f = l := by
  intro l
  induction l with
  | nil => intro _; rfl
  | cons d ds ih =>
    intro h
    rw [List.map_cons, h d (List.mem_cons_self _ _), ih]
    intro c hc
    exact h c (List.mem_cons_of_mem _ hc)

lemma doubleQuotes_eq_self : ∀ {l : List Char}, (∀ c ∈ l, c ≠ squote) → doubleQuotes l = l := by
  intro l
  induction l with
  | nil => intro _; rfl
  | cons d ds ih =>
    intro h
    simp only [doubleQuotes]
    rw [if_neg (h d (List.mem_cons_self _ _)), ih]
    intro c hc
    exact h c (List.mem_cons_of_mem _ hc)

lemma collapseAux_append_clean :
    ∀ {t : List Char}, (∀ c ∈ t, isSep c = false) →
      ∀ r, collapseAux (t ++ r) false = t ++ collapseAux r false := by
  intro t
  induction t with
  | nil => intro _ r; rfl
  | cons d ds ih =>
    intro h r
    have hd : isSep d = false := h d (List.mem_cons_self _ _)
    simp only [List.cons_append, collapseAux, List.append_eq]
    rw [if_neg (by simp [hd]), ih (fun c hc => h c (List.mem_cons_of_mem _ hc)) r]

lemma collapseAux_true_head_not_sep {d : Char} {r : List Char} (hd : isSep d = false) :
    collapseAux (d :: r) true = collapseAux (d :: r) false := by
  simp only [collapseAux]
  rw [if_neg (by simp [hd]), if_neg (by simp [hd])]

lemma collapseAux_joinSp :
    ∀ {ts : List (List Char)},
      (∀ t ∈ ts, t ≠ [] ∧ ∀ c ∈ t, isSep c = false) →
      collapseAux (joinSp ts) false = joinSp ts := by
  intro ts
  induction ts with
  | nil => intro _; rfl
  | cons t ts ih =>
    intro h
    have ht := h t (List.mem_cons_self _ _)
    cases ts with
    | nil =>
      have := collapseAux_append_clean ht.2 []
      simpa [joinSp, collapseAux] using this
    | cons t₂ ts₂ =>
      rw [joinSp_cons_cons, collapseAux_append_clean ht.2]
      have ht₂ := h t₂ (List.mem_cons_of_mem _ (List.mem_cons_self _ _))
      have hstep : collapseAux (' ' :: joinSp (t₂ :: ts₂)) false
          = ' ' :: collapseAux (joinSp (t₂ :: ts₂)) true := by
        simp only [collapseAux]
        rw [if_pos isSep_space]
      rw [hstep]
      cases hJ : joinSp (t₂ :: ts₂) with
      | nil => exact absurd hJ (joinSp_ne_nil ht₂.1)
      | cons y ys =>
        have hy : isSep y = false := by
          have hhead : (joinSp (t₂ :: ts₂)).head? = t₂.head? := joinSp_head ht₂.1
          rw [hJ] at hhead
          have hmem : y ∈ t₂ := by
            cases hT : t₂ with
            | nil => exact absurd hT ht₂.1
            | cons z zs =>
              rw [hT] at hhead
              simp only [List.head?_cons, Option.some.injEq] at hhead
              rw [hhead]
              exact List.mem_cons_self _ _
          exact ht₂.2 y hmem
        rw [collapseAux_true_head_not_sep hy, ← hJ,
          ih (fun t' ht' => h t' (List.mem_cons_of_mem _ ht'))]

lemma splitSp_append_space {t : List Char} (h : ' ' ∉ t) :
    ∀ r, splitSp (t ++ ' ' :: r) = t :: splitSp r := by
  induction t with
  | nil =>
    intro r
    simp [splitSp]
  | cons c cs ih =>
    intro r
    have hc : c ≠ ' ' := fun hcc => h (hcc ▸ List.mem_cons_self _ _)
    simp only [List.cons_append, splitSp, List.append_eq]
    rw [if_neg hc, ih (fun hm => h (List.mem_cons_of_mem _ hm)) r]

lemma splitSp_of_no_space : ∀ {t : List Char}, ' ' ∉ t → splitSp t = [t] := by
  intro t
  induction t with
  | nil => intro _; rfl
  | cons c cs ih =>
    intro h
    have hc : c ≠ ' ' := fun hcc => h (hcc ▸ List.mem_cons_self _ _)
    simp only [splitSp]
    rw [if_neg hc, ih (fun hm => h (List.mem_cons_of_mem _ hm))]

lemma splitSp_joinSp :
    ∀ {ts : List (List Char)}, (∀ t ∈ ts, ' ' ∉ t) → ts ≠ [] →
      splitSp (joinSp ts) = ts := by
  intro ts
  induction ts with
  | nil => intro _ h; exact absurd rfl h
  | cons t ts ih =>
    intro h _
    cases ts with
    | nil => exact splitSp_of_no_space (h t (List.mem_cons_self _ _))
    | cons t₂ ts₂ =>
      rw [joinSp_cons_cons, splitSp_append_space (h t (List.mem_cons_self _ _)),
        ih (fun t' ht' => h t' (List.mem_cons_of_mem _ ht')) (by simp)]

lemma mem_of_head?_eq {α : Type} {l : List α} {c : α} (h : l.head? = some c) : c ∈ l := by
  cases l with
  | nil => simp at h
  | cons d ds =>
    simp only [List.head?_cons, Option.some.injEq] at h
    rw [← h]
    exact List.mem_cons_self _ _

lemma mem_of_getLast?_eq {α : Type} {l : List α} {c : α} (h : l.getLast? = some c) : c ∈ l := by
  obtain ⟨hne, heq⟩ := List.mem_getLast?_eq_getLast (Option.mem_def.mpr h)
  rw [heq]
  exact List.getLast_mem hne

lemma mem_normalizeSearch {s : List Char} {c : Char} (hc : c ∈ normalizeSearch s) :
    Char.toLower c = c ∧ c ≠ altSepChar ∧ (isSep c = true → c = ' ') := by
  have h1 : c ∈ collapseAux (replaceAltSep (toLowerL (trimL s))) false := mem_doubleQuotes hc
  rcases mem_collapseAux h1 with rfl | ⟨h2, hsep⟩
  · exact ⟨by decide, by decide, fun _ => rfl⟩
  · simp only [replaceAltSep, toLowerL, List.map_map, List.mem_map, Function.comp] at h2
    obtain ⟨d, _, hcd⟩ := h2
    by_cases hAlt : Char.toLower d = altSepChar
    · have hce : c = ' ' := by rw [← hcd, if_pos hAlt]
      subst hce
      exact ⟨by decide, by decide, fun _ => rfl⟩
    · have hce : c = Char.toLower d := by rw [← hcd, if_neg hAlt]
      subst hce
      exact ⟨toLower_idem d, hAlt, fun hs => absurd hs (by simp [hsep])⟩

lemma head?_normalizeSearch {s : List Char} {c : Char}
    (h : (normalizeSearch s).head? = some c) (hc : c ≠ ' ') : isJsWhite c = false := by
  rw [normalizeSearch, head?_doubleQuotes] at h
  simp only [collapseSeps] at h
  obtain ⟨h1, _⟩ := head?_collapseSeps h hc
  simp only [replaceAltSep, toLowerL, List.map_map, List.head?_map, Function.comp] at h1
  cases hT : (trimL s).head? with
  | none => rw [hT] at h1; simp at h1
  | some d =>
    rw [hT] at h1
    simp only [Option.map_some', Option.some.injEq] at h1
    replace h1 : (if Char.toLower d = altSepChar then ' ' else Char.toLower d) = c := h1
    have hdw : isJsWhite d = false := trimL_head_not_white hT
    by_cases hAlt : Char.toLower d = altSepChar
    · rw [if_pos hAlt] at h1
      exact absurd h1.symm hc
    · rw [if_neg hAlt] at h1
      rw [← h1]
      by_cases hw : isJsWhite (Char.toLower d)
      · exact absurd (isJsWhite_toLower hw) (by simp [hdw])
      · simpa using hw

lemma getLast?_normalizeSearch {s : List Char} {c : Char}
    (h : (normalizeSearch s).getLast? = some c) (hc : c ≠ ' ') : isJsWhite c = false := by
  rw [normalizeSearch, getLast?_doubleQuotes] at h
  simp only [collapseSeps] at h
  obtain ⟨h1, _⟩ := getLast?_collapseAux hc h
  simp only [replaceAltSep, toLowerL, List.map_map, List.getLast?_map, Function.comp] at h1
  cases hT : (trimL s).getLast? with
  | none => rw [hT] at h1; simp at h1
  | some d =>
    rw [hT] at h1
    simp only [Option.map_some', Option.some.injEq] at h1
    replace h1 : (if Char.toLower d = altSepChar then ' ' else Char.toLower d) = c := h1
    have hdw : isJsWhite d = false := trimL_getLast_not_white hT
    by_cases hAlt : Char.toLower d = altSepChar
    · rw [if_pos hAlt] at h1
      exact absurd h1.symm hc
    · rw [if_neg hAlt] at h1
      rw [← h1]
      by_cases hw : isJsWhite (Char.toLower d)
      · exact absurd (isJsWhite_toLower hw) (by simp [hdw])
      · simpa using hw

lemma tokenizeL_token_chars {s t : List Char} (ht : t ∈ tokenizeL s) {c : Char} (hc : c ∈ t) :
    c ≠ ' ' ∧ Char.toLower c = c ∧ c ≠ altSepChar ∧ isSep c = false := by
  have h1 : c ∈ normalizeSearch s := mem_of_mem_splitSp ht hc
  have h2 := mem_normalizeSearch h1
  have hns : c ≠ ' ' := fun he => splitSp_no_space ht (he ▸ hc)
  refine ⟨hns, h2.1, h2.2.1, ?_⟩
  by_cases hs : isSep c
  · exact absurd (h2.2.2 hs) hns
  · simpa using hs

lemma tokenizeL_joinSp_eq {s : List Char}
    (h : ∀ t ∈ tokenizeL s, t ≠ [] ∧ squote ∉ t) :
    tokenizeL (joinSp (tokenizeL s)) = tokenizeL s := by
  have hts_ne : tokenizeL s ≠ [] := splitSp_ne_nil _
  have hchars : ∀ c ∈ joinSp (tokenizeL s),
      c = ' ' ∨ (c ≠ ' ' ∧ Char.toLower c = c ∧ c ≠ altSepChar ∧ isSep c = false
        ∧ c ≠ squote) := by
    intro c hc
    rcases mem_joinSp hc with rfl | ⟨t, ht, hct⟩
    · exact Or.inl rfl
    · have hp := tokenizeL_token_chars ht hct
      refine Or.inr ⟨hp.1, hp.2.1, hp.2.2.1, hp.2.2.2, ?_⟩
      intro he
      exact (h t ht).2 (he ▸ hct)
  have htrim : trimL (joinSp (tokenizeL s)) = joinSp (tokenizeL s) := by
    apply trimL_eq_self
    · intro c hhead
      cases hsp : tokenizeL s with
      | nil => exact absurd hsp hts_ne
      | cons t₁ ts' =>
        have ht₁ : t₁ ≠ [] := (h t₁ (hsp ▸ List.mem_cons_self _ _)).1
        rw [hsp, joinSp_head ht₁, splitSp_head hsp ht₁] at hhead
        have hcmem : c ∈ t₁ := by
          rw [← splitSp_head hsp ht₁] at hhead
          exact mem_of_head?_eq hhead
        have hcs : c ≠ ' ' := fun he => splitSp_no_space (hsp ▸ List.mem_cons_self t₁ ts') (he ▸ hcmem)
        exact head?_normalizeSearch hhead hcs
    · intro c hlast
      cases hlk : (tokenizeL s).getLast? with
      | none => exact absurd (List.getLast?_eq_none_iff.mp hlk) hts_ne
      | some tk =>
        have htk_mem : tk ∈ tokenizeL s := mem_of_getLast?_eq hlk
        have htk : tk ≠ [] := (h tk htk_mem).1
        rw [joinSp_getLast hlk htk, splitSp_getLast hlk htk] at hlast
        have hcmem : c ∈ tk := by
          rw [← splitSp_getLast hlk htk] at hlast
          exact mem_of_getLast?_eq hlast
        have hcs : c ≠ ' ' := fun he => splitSp_no_space htk_mem (he ▸ hcmem)
        exact getLast?_normalizeSearch hlast hcs
  have hlower : toLowerL (joinSp (tokenizeL s)) = joinSp (tokenizeL s) := by
    apply map_eq_self_of
    intro c hc
    rcases hchars c hc with rfl | hp
    · decide
    · exact hp.2.1
  have halt : replaceAltSep (joinSp (tokenizeL s)) = joinSp (tokenizeL s) := by
    apply map_eq_self_of
    intro c hc
    rcases hchars c hc with rfl | hp
    · decide
    · exact if_neg hp.2.2.1
  have hcoll : collapseSeps (joinSp (tokenizeL s)) = joinSp (tokenizeL s) := by
    apply collapseAux_joinSp
    intro t ht
    refine ⟨(h t ht).1, ?_⟩
    intro c hct
    exact (tokenizeL_token_chars ht hct).2.2.2
  have hdq : doubleQuotes (joinSp (tokenizeL s)) = joinSp (tokenizeL s) := by
    apply doubleQuotes_eq_self
    intro c hc
    rcases hchars c hc with rfl | hp
    · decide
    · exact hp.2.2.2.2
  have hsplit : splitSp (joinSp (tokenizeL s)) = tokenizeL s := by
    apply splitSp_joinSp
    · intro t ht
      exact splitSp_no_space ht
    · exact hts_ne
  show splitSp (normalizeSearch (joinSp (tokenizeL s))) = tokenizeL s
  rw [normalizeSearch, htrim, hlower, halt, hcoll, hdq, hsplit]

/- ================================================================
   Claims C8 and C9: the tokenizer.
   ================================================================ -/

/-- Claim C8, counterexample: the tokenizer does not equal the spec's
pipeline on every input, because the source trims the string first.  On
the input consisting of a space followed by the letter a, the source
yields one token while the spec pipeline yields a leading empty token. -/
theorem tokenize_pipeline_differs_on_leading_space :
    tokenizeL [' ', 'a'] = [['a']] ∧ specTokenizeL [' ', 'a'] = [[], ['a']] ∧
      tokenizeL [' ', 'a'] ≠ specTokenizeL [' ', 'a'] := by decide

/-- Claim C8 (amended): for every input string the tokenizer equals the
spec's pipeline with an initial trim step prepended (trim, lowercase,
alternate separator to space, collapse the character class to single
spaces, double single quotes, split on spaces); in particular
"Harry Potter" yields the tokens "harry", "potter" and the empty string
yields a single empty-string token. -/
theorem tokenize_matches_trimmed_pipeline :
    (∀ l : List Char, tokenizeL l = specTokenizeTrimL l) ∧
      tokenizeL "Harry Potter".data = ["harry".data, "potter".data] ∧
      tokenizeL [] = [[]] := by
  refine ⟨?_, by decide, by decide⟩
  intro l
  simp [tokenizeL, specTokenizeTrimL, normalizeSearch, collapseSeps_eq_specCollapse]

/-- Claim C9, counterexample: tokenization is not idempotent on its own
output for every string.  Re-tokenizing re-doubles single quotes
(input: don + quote + t), and a separator-only input produces empty
tokens whose join re-collapses (input: a comma). -/
theorem tokenize_not_idempotent_on_quotes_or_seps :
    tokenizeL ['d', 'o', 'n', squote, 't'] = [['d', 'o', 'n', squote, squote, 't']] ∧
      tokenizeL (joinSp (tokenizeL ['d', 'o', 'n', squote, 't']))
        = [['d', 'o', 'n', squote, squote, squote, squote, 't']] ∧
      tokenizeL (joinSp (tokenizeL ['d', 'o', 'n', squote, 't']))
        ≠ tokenizeL ['d', 'o', 'n', squote, 't'] ∧
      tokenizeL (joinSp (tokenizeL [','])) ≠ tokenizeL [','] := by decide

/-- Claim C9 (amended): tokenization is idempotent on its own output
whenever every produced token is nonempty and contains no single quote:
tokenizing the space-join of the tokens of s yields the same token
sequence. -/
theorem tokenize_idempotent_on_clean_tokens (s : List Char)
    (h : ∀ t ∈ tokenizeL s, t ≠ [] ∧ squote ∉ t) :
    tokenizeL (joinSp (tokenizeL s)) = tokenizeL s :=
  tokenizeL_joinSp_eq h

/-- Witness for C9 at the concrete input "hi yo". -/
theorem tokenize_idempotent_on_clean_tokens_witness :
    (∀ t ∈ tokenizeL ['h', 'i', ' ', 'y', 'o'], t ≠ [] ∧ squote ∉ t) ∧
      tokenizeL (joinSp (tokenizeL ['h', 'i', ' ', 'y', 'o']))
        = tokenizeL ['h', 'i', ' ', 'y', 'o'] :=
  ⟨by decide, tokenize_idempotent_on_clean_tokens ['h', 'i', ' ', 'y', 'o'] (by decide)⟩

/- ================================================================
   Section 2: pagination (`getPageNavigation`)

   function getPageNavigation(page, count) {
     if (count <= PAGE_LIMIT) { return { size: count }; }
     const lastpage = Math.ceil(count / PAGE_LIMIT) - 1;
     if (page < 0) { page = 0 } else if (page > lastpage) { page = lastpage }
     return { size, currentpage, firstpage, prevpage, nextpage, lastpage };
   }

   `PAGE_LIMIT` (default 30, always positive) is a module constant in the
   source and is passed here as the `limit` parameter.  `Math.ceil(count /
   limit)` is written `(count + limit - 1) / limit`, which agrees with it
   on the integer inputs of the guarded branch (`count > limit ≥ 1`).  The
   enabled `firstpage` link carries the string "0" in the source; link
   values are modelled as integers.
   ================================================================ -/

/-- A navigation link: an enabled target page, or the disabled marker
(`value: "", class: "disabled"` in the source). -/
inductive NavLink where
  | enabled (value : Int)
  | disabled
deriving DecidableEq

/-- Result shape of `getPageNavigation`: either only the `size` field
(single page) or the full record of navigation links. -/
inductive PageNav where
  | sizeOnly (size : Int)
  | full (size : Int) (currentpage : Int)
      (firstpage prevpage nextpage lastpage : NavLink)
deriving DecidableEq

/-- `getPageNavigation` from the source. -/
def getPageNavigation (limit : Nat) (page count : Int) : PageNav :=
  if count ≤ (limit : Int) then .sizeOnly count
  else
    let lastpage : Int := (count + limit - 1) / limit - 1
    let p : Int := if page < 0 then 0 else if page > lastpage then lastpage else page
    .full count p
      (if 0 < p then .enabled 0 else .disabled)
      (if p > 0 then .enabled (p - 1) else .disabled)
      (if p < lastpage then .enabled (p + 1) else .disabled)
      (if p ≤ lastpage then .enabled lastpage else .disabled)

/-- Claim C7: for every totalCount at most the page size, the pagination
calculator returns a state carrying only `size = totalCount`; no
navigation links are produced. -/
theorem pageNav_single_page (limit : Nat) (page count : Int)
    (h : count ≤ (limit : Int)) :
    getPageNavigation limit page count = PageNav.sizeOnly count := by
  rw [getPageNavigation, if_pos h]

/-- Witness for C7 at limit 30, requested page 5, count 12. -/
theorem pageNav_single_page_witness :
    (12 : Int) ≤ ((30 : Nat) : Int) ∧
      getPageNavigation 30 5 12 = PageNav.sizeOnly 12 :=
  ⟨by decide, pageNav_single_page 30 5 12 (by decide)⟩

/-- Claim C2, counterexample: with totalCount 95, page size 30 and
requested page 10, the last page is `ceil(95/30) - 1 = 3`, not 2 as the
claim states; the result is not the navigation record the claim
describes (clamped to 2, prev at 1, last enabled at 2). -/
theorem pageNav_95_30_10_not_page_two :
    getPageNavigation 30 10 95
      ≠ PageNav.full 95 2 (.enabled 0) (.enabled 1) .disabled (.enabled 2) := by decide

/-- Claim C2 (amended): with totalCount 95, page size 30 and requested
page 10, the page is clamped to lastPage = 3 (an out-of-range page is
never an error: the function still returns a full record), and the
navigation has firstpage and prevpage enabled, nextpage disabled, and
lastpage enabled at page 3. -/
theorem pageNav_95_30_10_clamped :
    getPageNavigation 30 10 95
      = PageNav.full 95 3 (.enabled 0) (.enabled 2) .disabled (.enabled 3) := by decide

/- ================================================================
   Section 3: list and book-detail dispatch (`listAction`, `bookAction`)

   JS values that matter here:
   - a count coming back from the store is compared with `<= 0`, `=== 0`
     and used in boolean position (`count && count !== 0`); `JsNum` models
     the possible shapes (number, null, undefined, NaN);
   - the `books` variable is initialised to the object literal `{}` (whose
     `.length` is undefined, so `books.length === 0` is false) and later
     possibly replaced by the array a find query returns.
   Numeric option fields are taken after the source's coercion
   `(!x || isNaN(x)) ? 0 : parseInt(x, 10)` (which can produce negative
   values, e.g. for the raw string "-1").  `options.searchString` is falsy
   exactly when absent or empty, modelled by the empty string.
   Books are identified by their numeric id; the enrichment the Field
   Enricher performs on a page (`addFields`) is not needed by any claim
   and is not modelled.
   ================================================================ -/

/-- Shape of a count value returned by the catalog store. -/
inductive JsNum where
  | num (n : Int)
  | null
  | undef
  | nan
deriving DecidableEq

/-- `count <= 0` (JS: null coerces to 0; undefined and NaN compare false). -/
def jsLe0 : JsNum → Bool
  | .num n => decide (n ≤ 0)
  | .null => true
  | .undef => false
  | .nan => false

/-- `count === 0`. -/
def jsEq0 : JsNum → Bool
  | .num n => decide (n = 0)
  | _ => false

/-- `count !== 0`. -/
def jsStrictNe0 (c : JsNum) : Bool := !jsEq0 c

/-- Truthiness of a count (`count` in boolean position). -/
def jsTruthy : JsNum → Bool
  | .num n => decide (n ≠ 0)
  | _ => false

/-- The `books` variable: the initial `{}` or the array a find returned. -/
inductive BooksVal where
  | obj
  | arr (books : List Nat)
deriving DecidableEq

/-- `books.length === 0` (undefined === 0 is false for the `{}` case). -/
def booksLenEq0 : BooksVal → Bool
  | .obj => false
  | .arr l => l.isEmpty

/-- The Catalog Store Facade: the count/find pair of each filter
dimension, with the argument order of the source. -/
structure Store where
  countBooks : Option (List String) → JsNum
  findBooks : Option (List String) → String → Nat → Int → List Nat
  countBooksWithTags : Option (List String) → Int → JsNum
  findBooksWithTags : Option (List String) → String → Int → Nat → Int → List Nat
  countBooksWithCC : Int → Option (List String) → Int → JsNum
  findBooksWithCC : Int → Option (List String) → String → Int → Nat → Int → List Nat
  countBooksBySerie : Int → JsNum
  findBooksBySerie : Int → String → Nat → Int → List Nat
  countBooksByAuthor : Int → JsNum
  findBooksByAuthor : Int → String → Nat → Int → List Nat

/-- Parsed request options of `listAction`/`bookAction` (after the
numeric coercions of the source; `type` is `options.type ||
request.params.type` for the list action and `options.type` for the book
action). -/
structure ListOptions where
  page : Int
  sortString : String
  type : Option String
  searchString : String
  tagId : Int
  ccNum : Int
  ccId : Int
  seriesId : Int
  authorsId : Int
deriving DecidableEq

/-- `options.searchString ? searchStringToArray(options.searchString) : null`. -/
def searchArrayOf (o : ListOptions) : Option (List String) :=
  if o.searchString = "" then none else some (searchTokens o.searchString)

/-- One store invocation, with its arguments. -/
inductive StoreQuery where
  | countBySerie (seriesId : Int)
  | findBySerie (seriesId : Int) (sortString : String) (limit : Nat) (offset : Int)
  | countByAuthor (authorsId : Int)
  | findByAuthor (authorsId : Int) (sortString : String) (limit : Nat) (offset : Int)
  | countWithTags (searchArray : Option (List String)) (tagId : Int)
  | findWithTags (searchArray : Option (List String)) (sortString : String)
      (tagId : Int) (limit : Nat) (offset : Int)
  | countWithCC (ccNum : Int) (searchArray : Option (List String)) (ccId : Int)
  | findWithCC (ccNum : Int) (searchArray : Option (List String)) (sortString : String)
      (ccId : Int) (limit : Nat) (offset : Int)
  | countAll (searchArray : Option (List String))
  | findAll (searchArray : Option (List String)) (sortString : String)
      (limit : Nat) (offset : Int)
deriving DecidableEq

/-- Response of `listAction`: the html message branch (only the message
text is modelled, not the surrounding div markup), or the rendered book
list (`pageNav` is `none` when the count reaching `getPageNavigation` is
not a number; the NaN arithmetic JS would then perform is not modelled). -/
inductive ListResponse where
  | message (text : String)
  | render (books : BooksVal) (pageNav : Option PageNav)
deriving DecidableEq

/-- Is the response one of the two message responses? -/
def ListResponse.isMessage : ListResponse → Bool
  | .message _ => true
  | .render _ _ => false

/-- Outcome of `listAction`: the store queries issued, in order, and the
response sent. -/
structure ListOutcome where
  queries : List StoreQuery
  response : ListResponse
deriving DecidableEq

/-- "Keine Bücher/Zeitschriften gefunden!" -/
def noResultsMsg : String := "Keine Bücher/Zeitschriften gefunden!"

/-- "Fehler beim Zugriff auf die Datenbank!" -/
def accessErrorMsg : String := "Fehler beim Zugriff auf die Datenbank!"

/-- The tail of `listAction` after the switch:
`if (count <= 0 || books.length === 0) send message else render`. -/
def listFinish (limit : Nat) (page : Int) (count : JsNum) (books : BooksVal)
    (qs : List StoreQuery) : ListOutcome :=
  if jsLe0 count || booksLenEq0 books then
    ⟨qs, .message (if jsEq0 count then noResultsMsg else accessErrorMsg)⟩
  else
    ⟨qs, .render books (match count with
      | .num n => some (getPageNavigation limit page n)
      | _ => none)⟩

/-- `listAction` from the source (lines 145-233): the switch on `type`,
the tag > customColumn > plain-search dispatch of the default branch, the
guarded find call of each branch, and the message/render tail.  `limit`
is the module constant `PAGE_LIMIT`. -/
def listAction (store : Store) (o : ListOptions) (limit : Nat) : ListOutcome :=
  if o.type = some "serie" then
    let count := store.countBooksBySerie o.seriesId
    if jsStrictNe0 count then
      listFinish limit o.page count
        (.arr (store.findBooksBySerie o.seriesId o.sortString limit (o.page * limit)))
        [.countBySerie o.seriesId,
         .findBySerie o.seriesId o.sortString limit (o.page * limit)]
    else
      listFinish limit o.page count .obj [.countBySerie o.seriesId]
  else if o.type = some "author" then
    let count := store.countBooksByAuthor o.authorsId
    if jsStrictNe0 count then
      listFinish limit o.page count
        (.arr (store.findBooksByAuthor o.authorsId o.sortString limit (o.page * limit)))
        [.countByAuthor o.authorsId,
         .findByAuthor o.authorsId o.sortString limit (o.page * limit)]
    else
      listFinish limit o.page count .obj [.countByAuthor o.authorsId]
  else
    let sa := searchArrayOf o
    if 0 < o.tagId then
      let count := store.countBooksWithTags sa o.tagId
      if jsStrictNe0 count then
        listFinish limit o.page count
          (.arr (store.findBooksWithTags sa o.sortString o.tagId limit (o.page * limit)))
          [.countWithTags sa o.tagId,
           .findWithTags sa o.sortString o.tagId limit (o.page * limit)]
      else
        listFinish limit o.page count .obj [.countWithTags sa o.tagId]
    else if 0 < o.ccNum then
      let count := store.countBooksWithCC o.ccNum sa o.ccId
      if jsStrictNe0 count then
        listFinish limit o.page count
          (.arr (store.findBooksWithCC o.ccNum sa o.sortString o.ccId limit (o.page * limit)))
          [.countWithCC o.ccNum sa o.ccId,
           .findWithCC o.ccNum sa o.sortString o.ccId limit (o.page * limit)]
      else
        listFinish limit o.page count .obj [.countWithCC o.ccNum sa o.ccId]
    else if o.tagId = 0 ∧ o.ccNum = 0 then
      let count := store.countBooks sa
      if jsTruthy count && jsStrictNe0 count then
        listFinish limit o.page count
          (.arr (store.findBooks sa o.sortString limit (o.page * limit)))
          [.countAll sa, .findAll sa o.sortString limit (o.page * limit)]
      else
        listFinish limit o.page count .obj [.countAll sa]
    else
      listFinish limit o.page (.num 0) .obj []

/-- Outcome of the prev/next computation of `bookAction` (lines 256-305):
the issued queries with `prevBook`/`nextBook`, or the crash the source
runs into when no dispatch branch assigns the arrays and
`nextBookArray[0]` dereferences undefined. -/
inductive BookNavOutcome where
  | ok (queries : List StoreQuery) (prevBook nextBook : Option Nat)
  | crash (queries : List StoreQuery)
deriving DecidableEq

/-- Queries issued by a `BookNavOutcome`. -/
def BookNavOutcome.queries : BookNavOutcome → List StoreQuery
  | .ok qs _ _ => qs
  | .crash qs => qs

/-- The prev/next dispatch of `bookAction`, for a request that supplies
`bookId` and a truthy `num`; `rowNum` is `parseInt(options.num, 10) - 1`. -/
def bookNav (store : Store) (o : ListOptions) (rowNum : Int) : BookNavOutcome :=
  if o.type = some "serie" then
    .ok ((if rowNum = 0 then [] else
            [.findBySerie o.seriesId o.sortString 1 (rowNum - 1)]) ++
          [.findBySerie o.seriesId o.sortString 1 (rowNum + 1)])
      (if rowNum = 0 then ([] : List Nat) else
          store.findBooksBySerie o.seriesId o.sortString 1 (rowNum - 1)).head?
      (store.findBooksBySerie o.seriesId o.sortString 1 (rowNum + 1)).head?
  else if o.type = some "author" then
    .ok ((if rowNum = 0 then [] else
            [.findByAuthor o.authorsId o.sortString 1 (rowNum - 1)]) ++
          [.findByAuthor o.authorsId o.sortString 1 (rowNum + 1)])
      (if rowNum = 0 then ([] : List Nat) else
          store.findBooksByAuthor o.authorsId o.sortString 1 (rowNum - 1)).head?
      (store.findBooksByAuthor o.authorsId o.sortString 1 (rowNum + 1)).head?
  else
    let sa := searchArrayOf o
    if 0 < o.tagId then
      .ok ((if rowNum = 0 then [] else
              [.findWithTags sa o.sortString o.tagId 1 (rowNum - 1)]) ++
            [.findWithTags sa o.sortString o.tagId 1 (rowNum + 1)])
        (if rowNum = 0 then ([] : List Nat) else
            store.findBooksWithTags sa o.sortString o.tagId 1 (rowNum - 1)).head?
        (store.findBooksWithTags sa o.sortString o.tagId 1 (rowNum + 1)).head?
    else if 0 < o.ccNum then
      .ok ((if rowNum = 0 then [] else
              [.findWithCC o.ccNum sa o.sortString o.ccId 1 (rowNum - 1)]) ++
            [.findWithCC o.ccNum sa o.sortString o.ccId 1 (rowNum + 1)])
        (if rowNum = 0 then ([] : List Nat) else
            store.findBooksWithCC o.ccNum sa o.sortString o.ccId 1 (rowNum - 1)).head?
        (store.findBooksWithCC o.ccNum sa o.sortString o.ccId 1 (rowNum + 1)).head?
    else if o.tagId = 0 ∧ o.ccNum = 0 then
      .ok ((if rowNum = 0 then [] else
              [.findAll sa o.sortString 1 (rowNum - 1)]) ++
            [.findAll sa o.sortString 1 (rowNum + 1)])
        (if rowNum = 0 then ([] : List Nat) else
            store.findBooks sa o.sortString 1 (rowNum - 1)).head?
        (store.findBooks sa o.sortString 1 (rowNum + 1)).head?
    else
      .crash []

/- ================================================================
   Spec reading: the active filter dimension and its find query.
   ================================================================ -/

/-- A filter dimension. -/
inductive Dim where
  | serie
  | author
  | tag
  | cc
  | search
deriving DecidableEq

/-- The dimension a store query belongs to. -/
def queryDim : StoreQuery → Dim
  | .countBySerie _ => .serie
  | .findBySerie _ _ _ _ => .serie
  | .countByAuthor _ => .author
  | .findByAuthor _ _ _ _ => .author
  | .countWithTags _ _ => .tag
  | .findWithTags _ _ _ _ _ => .tag
  | .countWithCC _ _ _ => .cc
  | .findWithCC _ _ _ _ _ _ => .cc
  | .countAll _ => .search
  | .findAll _ _ _ _ => .search

/-- Spec reading: the active dimension, by the stated precedence
(serie/author entry points, else tag if tagId > 0, else customColumn if
ccNum > 0, else plain search). -/
def activeDim (o : ListOptions) : Dim :=
  if o.type = some "serie" then .serie
  else if o.type = some "author" then .author
  else if 0 < o.tagId then .tag
  else if 0 < o.ccNum then .cc
  else .search

/-- Spec reading: the find query of the active dimension at a given
limit and offset, with the request's sortString and filter values. -/
def dimFindQuery (o : ListOptions) (limit : Nat) (offset : Int) : StoreQuery :=
  match activeDim o with
  | .serie => .findBySerie o.seriesId o.sortString limit offset
  | .author => .findByAuthor o.authorsId o.sortString limit offset
  | .tag => .findWithTags (searchArrayOf o) o.sortString o.tagId limit offset
  | .cc => .findWithCC o.ccNum (searchArrayOf o) o.sortString o.ccId limit offset
  | .search => .findAll (searchArrayOf o) o.sortString limit offset

/-- Spec reading: executing the find query of the active dimension. -/
def dimFind (store : Store) (o : ListOptions) (limit : Nat) (offset : Int) : List Nat :=
  match activeDim o with
  | .serie => store.findBooksBySerie o.seriesId o.sortString limit offset
  | .author => store.findBooksByAuthor o.authorsId o.sortString limit offset
  | .tag => store.findBooksWithTags (searchArrayOf o) o.sortString o.tagId limit offset
  | .cc => store.findBooksWithCC o.ccNum (searchArrayOf o) o.sortString o.ccId limit offset
  | .search => store.findBooks (searchArrayOf o) o.sortString limit offset

/-- The option shapes for which the dispatch reaches a query branch: a
dedicated serie/author entry point, or non-negative tagId and ccNum. -/
def queryIssued (o : ListOptions) : Prop :=
  o.type = some "serie" ∨ o.type = some "author" ∨ (0 ≤ o.tagId ∧ 0 ≤ o.ccNum)

instance (o : ListOptions) : Decidable (queryIssued o) := by
  unfold queryIssued
  exact inferInstance

/-- A store whose counts are all 7 and whose finds all return three ids. -/
def constStore : Store where
  countBooks := fun _ => .num 7
  findBooks := fun _ _ _ _ => [1, 2, 3]
  countBooksWithTags := fun _ _ => .num 7
  findBooksWithTags := fun _ _ _ _ _ => [1, 2, 3]
  countBooksWithCC := fun _ _ _ => .num 7
  findBooksWithCC := fun _ _ _ _ _ _ => [1, 2, 3]
  countBooksBySerie := fun _ => .num 7
  findBooksBySerie := fun _ _ _ _ => [1, 2, 3]
  countBooksByAuthor := fun _ => .num 7
  findBooksByAuthor := fun _ _ _ _ => [1, 2, 3]

/-- A store whose count queries all return `c` and whose find queries all
return `found`. -/
def constCountStore (c : JsNum) (found : List Nat) : Store where
  countBooks := fun _ => c
  findBooks := fun _ _ _ _ => found
  countBooksWithTags := fun _ _ => c
  findBooksWithTags := fun _ _ _ _ _ => found
  countBooksWithCC := fun _ _ _ => c
  findBooksWithCC := fun _ _ _ _ _ _ => found
  countBooksBySerie := fun _ => c
  findBooksBySerie := fun _ _ _ _ => found
  countBooksByAuthor := fun _ => c
  findBooksByAuthor := fun _ _ _ _ => found

/-- Options of a plain request: no type, no search string, all numeric
filters zero. -/
def plainOptions : ListOptions where
  page := 0
  sortString := ""
  type := none
  searchString := ""
  tagId := 0
  ccNum := 0
  ccId := 0
  seriesId := 0
  authorsId := 0

/-- `plainOptions` with the raw field `tagId = "-1"`, which the source's
coercion parses to -1. -/
def negTagOptions : ListOptions := { plainOptions with tagId := -1 }

/-- `plainOptions` with the raw field `ccNum = "-2"`, parsed to -2. -/
def negCcOptions : ListOptions := { plainOptions with ccNum := -2 }

lemma listFinish_queries (limit : Nat) (page : Int) (count : JsNum) (books : BooksVal)
    (qs : List StoreQuery) : (listFinish limit page count books qs).queries = qs := by
  unfold listFinish
  split <;> rfl

lemma queryDim_single {qc : StoreQuery} {d : Dim} (h1 : queryDim qc = d) :
    ∀ q ∈ [qc], queryDim q = d := by
  intro q hq
  simp only [List.mem_singleton] at hq
  subst hq
  exact h1

lemma queryDim_pair {qc qf : StoreQuery} {d : Dim}
    (h1 : queryDim qc = d) (h2 : queryDim qf = d) :
    ∀ q ∈ [qc, qf], queryDim q = d := by
  intro q hq
  rcases List.mem_cons.mp hq with rfl | hq
  · exact h1
  · simp only [List.mem_singleton] at hq
    subst hq
    exact h2

lemma queryDim_prevnext {q₁ q₂ : StoreQuery} {d : Dim} {c : Prop} [Decidable c]
    (h1 : queryDim q₁ = d) (h2 : queryDim q₂ = d) :
    ∀ q ∈ (if c then ([] : List StoreQuery) else [q₁]) ++ [q₂], queryDim q = d := by
  intro q hq
  rcases List.mem_append.mp hq with hq | hq
  · by_cases hc : c
    · rw [if_pos hc] at hq
      simp at hq
    · rw [if_neg hc] at hq
      simp only [List.mem_singleton] at hq
      subst hq
      exact h1
  · simp only [List.mem_singleton] at hq
    subst hq
    exact h2

/-- Options of the spec's scenario `tagId = 5, ccNum = 3`. -/
def tagCcOptions : ListOptions := { plainOptions with tagId := 5, ccNum := 3 }

/-- Claim C1, counterexample: for a list request with no type, `tagId =
-1` (the coercion parses the raw string "-1" to -1) and `ccNum = 0`,
neither the tag nor the custom-column dimension wins, yet the plain
free-text search is not executed either: the guard `tagId === 0 && ccNum
=== 0` fails and no store query at all is issued. -/
theorem listAction_negative_tagId_no_query :
    negTagOptions.type = none ∧ negTagOptions.tagId = -1 ∧ negTagOptions.ccNum = 0 ∧
      (listAction constStore negTagOptions 30).queries = [] := by decide

/-- Claim C1 (amended): for every list or book-detail request whose type
is neither serie nor author, provided tagId > 0, or ccNum > 0, or tagId
and ccNum are both 0, at least one query is issued and every issued
query belongs to exactly one dimension, chosen by precedence: tag if
tagId > 0, else customColumn if ccNum > 0, else the plain free-text
search. -/
theorem filter_dimension_precedence (store : Store) (o : ListOptions) (limit : Nat)
    (rowNum : Int)
    (hs : o.type ≠ some "serie") (ha : o.type ≠ some "author")
    (hd : 0 < o.tagId ∨ 0 < o.ccNum ∨ (o.tagId = 0 ∧ o.ccNum = 0)) :
    ((listAction store o limit).queries ≠ [] ∧
      ∀ q ∈ (listAction store o limit).queries,
        queryDim q = (if 0 < o.tagId then Dim.tag
          else if 0 < o.ccNum then Dim.cc else Dim.search)) ∧
    ((bookNav store o rowNum).queries ≠ [] ∧
      ∀ q ∈ (bookNav store o rowNum).queries,
        queryDim q = (if 0 < o.tagId then Dim.tag
          else if 0 < o.ccNum then Dim.cc else Dim.search)) := by
  by_cases h1 : 0 < o.tagId
  · rw [if_pos h1]
    constructor
    · simp only [listAction, if_neg hs, if_neg ha, if_pos h1]
      by_cases h2 : jsStrictNe0 (store.countBooksWithTags (searchArrayOf o) o.tagId)
      · rw [if_pos h2, listFinish_queries]
        exact ⟨by simp, queryDim_pair rfl rfl⟩
      · rw [if_neg h2, listFinish_queries]
        exact ⟨by simp, queryDim_single rfl⟩
    · simp only [bookNav, if_neg hs, if_neg ha, if_pos h1, BookNavOutcome.queries]
      exact ⟨by simp, queryDim_prevnext rfl rfl⟩
  · by_cases h2 : 0 < o.ccNum
    · rw [if_neg h1, if_pos h2]
      constructor
      · simp only [listAction, if_neg hs, if_neg ha, if_neg h1, if_pos h2]
        by_cases h3 : jsStrictNe0 (store.countBooksWithCC o.ccNum (searchArrayOf o) o.ccId)
        · rw [if_pos h3, listFinish_queries]
          exact ⟨by simp, queryDim_pair rfl rfl⟩
        · rw [if_neg h3, listFinish_queries]
          exact ⟨by simp, queryDim_single rfl⟩
      · simp only [bookNav, if_neg hs, if_neg ha, if_neg h1, if_pos h2,
          BookNavOutcome.queries]
        exact ⟨by simp, queryDim_prevnext rfl rfl⟩
    · have h0 : o.tagId = 0 ∧ o.ccNum = 0 := by
        rcases hd with h | h | h
        · exact absurd h h1
        · exact absurd h h2
        · exact h
      rw [if_neg h1, if_neg h2]
      constructor
      · simp only [listAction, if_neg hs, if_neg ha, if_neg h1, if_neg h2, if_pos h0]
        by_cases h3 : jsTruthy (store.countBooks (searchArrayOf o)) &&
            jsStrictNe0 (store.countBooks (searchArrayOf o))
        · rw [if_pos h3, listFinish_queries]
          exact ⟨by simp, queryDim_pair rfl rfl⟩
        · rw [if_neg h3, listFinish_queries]
          exact ⟨by simp, queryDim_single rfl⟩
      · simp only [bookNav, if_neg hs, if_neg ha, if_neg h1, if_neg h2, if_pos h0,
          BookNavOutcome.queries]
        exact ⟨by simp, queryDim_prevnext rfl rfl⟩

/-- Witness for C1 at the spec's scenario `tagId = 5, ccNum = 3`: the
tag dimension wins for both the list and the book-detail dispatch. -/
theorem filter_dimension_precedence_witness :
    (tagCcOptions.type ≠ some "serie" ∧ tagCcOptions.type ≠ some "author" ∧
      (0 < tagCcOptions.tagId ∨ 0 < tagCcOptions.ccNum ∨
        (tagCcOptions.tagId = 0 ∧ tagCcOptions.ccNum = 0))) ∧
    (((listAction constStore tagCcOptions 30).queries ≠ [] ∧
      ∀ q ∈ (listAction constStore tagCcOptions 30).queries,
        queryDim q = (if 0 < tagCcOptions.tagId then Dim.tag
          else if 0 < tagCcOptions.ccNum then Dim.cc else Dim.search)) ∧
    ((bookNav constStore tagCcOptions 4).queries ≠ [] ∧
      ∀ q ∈ (bookNav constStore tagCcOptions 4).queries,
        queryDim q = (if 0 < tagCcOptions.tagId then Dim.tag
          else if 0 < tagCcOptions.ccNum then Dim.cc else Dim.search))) :=
  ⟨⟨by decide, by decide, by decide⟩,
    filter_dimension_precedence constStore tagCcOptions 30 4
      (by decide) (by decide) (by decide)⟩

/-- Claim C3, counterexample: a book-detail request that supplies num
(rowNum = 5), no type, `tagId = 0` and `ccNum = -2` issues no next-item
query at all — no dispatch branch runs, and the source then crashes on
`nextBookArray[0]` — contradicting "next is always queried". -/
theorem bookNav_negative_ccNum_crash :
    negCcOptions.tagId = 0 ∧ negCcOptions.ccNum = -2 ∧
      bookNav constStore negCcOptions 5 = BookNavOutcome.crash [] := by decide

/-- Claim C3 (amended): for every book-detail request that supplies num
(rowNum = num - 1), a filter that reaches a dispatch branch (serie or
author entry point, or non-negative tagId and ccNum) and a sortString:
if rowNum = 0 no previous-item query is issued and previous is none,
otherwise previous is the single row found at offset rowNum - 1 with
limit 1; next is always queried at offset rowNum + 1 with limit 1 under
the same active filter dimension and sortString, and next is none when
the store returns an empty sequence (head? of the returned row list). -/
theorem bookNav_prev_next_queries (store : Store) (o : ListOptions) (rowNum : Int)
    (h : queryIssued o) :
    bookNav store o rowNum = BookNavOutcome.ok
      ((if rowNum = 0 then [] else [dimFindQuery o 1 (rowNum - 1)]) ++
        [dimFindQuery o 1 (rowNum + 1)])
      (if rowNum = 0 then none else (dimFind store o 1 (rowNum - 1)).head?)
      ((dimFind store o 1 (rowNum + 1)).head?) := by
  by_cases hs : o.type = some "serie"
  · simp only [bookNav, dimFindQuery, dimFind, activeDim, if_pos hs]
    by_cases hr : rowNum = 0 <;> simp [hr]
  · by_cases ha : o.type = some "author"
    · simp only [bookNav, dimFindQuery, dimFind, activeDim, if_neg hs, if_pos ha]
      by_cases hr : rowNum = 0 <;> simp [hr]
    · rcases h with h | h | ⟨ht, hc⟩
      · exact absurd h hs
      · exact absurd h ha
      · by_cases h1 : 0 < o.tagId
        · simp only [bookNav, dimFindQuery, dimFind, activeDim, if_neg hs, if_neg ha,
            if_pos h1]
          by_cases hr : rowNum = 0 <;> simp [hr]
        · by_cases h2 : 0 < o.ccNum
          · simp only [bookNav, dimFindQuery, dimFind, activeDim, if_neg hs, if_neg ha,
              if_neg h1, if_pos h2]
            by_cases hr : rowNum = 0 <;> simp [hr]
          · have h0 : o.tagId = 0 ∧ o.ccNum = 0 := by omega
            simp only [bookNav, dimFindQuery, dimFind, activeDim, if_neg hs, if_neg ha,
              if_neg h1, if_neg h2, if_pos h0]
            by_cases hr : rowNum = 0 <;> simp [hr]

/-- Witness for C3 at the scenario options (tag dimension) and rowNum 3. -/
theorem bookNav_prev_next_queries_witness :
    queryIssued tagCcOptions ∧
      bookNav constStore tagCcOptions 3 = BookNavOutcome.ok
        ((if (3 : Int) = 0 then [] else [dimFindQuery tagCcOptions 1 (3 - 1)]) ++
          [dimFindQuery tagCcOptions 1 (3 + 1)])
        (if (3 : Int) = 0 then none else (dimFind constStore tagCcOptions 1 (3 - 1)).head?)
        ((dimFind constStore tagCcOptions 1 (3 + 1)).head?) :=
  ⟨by decide, bookNav_prev_next_queries constStore tagCcOptions 3 (by decide)⟩

lemma listAction_zero_count (o : ListOptions) (limit : Nat) (found : List Nat) :
    (listAction (constCountStore (.num 0) found) o limit).response
      = .message noResultsMsg := by
  have hfin : ∀ (page : Int) (books : BooksVal) (qs : List StoreQuery),
      (listFinish limit page (.num 0) books qs).response = .message noResultsMsg := by
    intro page books qs
    unfold listFinish
    rw [if_pos (by simp [jsLe0])]
    simp [jsEq0]
  by_cases hs : o.type = some "serie"
  · simp only [listAction, if_pos hs]
    rw [if_neg (by simp [constCountStore, jsStrictNe0, jsEq0])]
    exact hfin _ _ _
  · by_cases ha : o.type = some "author"
    · simp only [listAction, if_neg hs, if_pos ha]
      rw [if_neg (by simp [constCountStore, jsStrictNe0, jsEq0])]
      exact hfin _ _ _
    · by_cases h1 : 0 < o.tagId
      · simp only [listAction, if_neg hs, if_neg ha, if_pos h1]
        rw [if_neg (by simp [constCountStore, jsStrictNe0, jsEq0])]
        exact hfin _ _ _
      · by_cases h2 : 0 < o.ccNum
        · simp only [listAction, if_neg hs, if_neg ha, if_neg h1, if_pos h2]
          rw [if_neg (by simp [constCountStore, jsStrictNe0, jsEq0])]
          exact hfin _ _ _
        · by_cases h0 : o.tagId = 0 ∧ o.ccNum = 0
          · simp only [listAction, if_neg hs, if_neg ha, if_neg h1, if_neg h2, if_pos h0]
            rw [if_neg (by simp [constCountStore, jsStrictNe0, jsEq0, jsTruthy])]
            exact hfin _ _ _
          · simp only [listAction, if_neg hs, if_neg ha, if_neg h1, if_neg h2, if_neg h0]
            exact hfin _ _ _

lemma listAction_null_count (o : ListOptions) (limit : Nat) (found : List Nat)
    (h : queryIssued o) :
    (listAction (constCountStore .null found) o limit).response
      = .message accessErrorMsg := by
  have hfin : ∀ (page : Int) (books : BooksVal) (qs : List StoreQuery),
      (listFinish limit page .null books qs).response = .message accessErrorMsg := by
    intro page books qs
    unfold listFinish
    rw [if_pos (by simp [jsLe0])]
    simp [jsEq0]
  by_cases hs : o.type = some "serie"
  · simp only [listAction, if_pos hs]
    rw [if_pos (by simp [constCountStore, jsStrictNe0, jsEq0])]
    exact hfin _ _ _
  · by_cases ha : o.type = some "author"
    · simp only [listAction, if_neg hs, if_pos ha]
      rw [if_pos (by simp [constCountStore, jsStrictNe0, jsEq0])]
      exact hfin _ _ _
    · rcases h with h | h | ⟨ht, hc⟩
      · exact absurd h hs
      · exact absurd h ha
      · by_cases h1 : 0 < o.tagId
        · simp only [listAction, if_neg hs, if_neg ha, if_pos h1]
          rw [if_pos (by simp [constCountStore, jsStrictNe0, jsEq0])]
          exact hfin _ _ _
        · by_cases h2 : 0 < o.ccNum
          · simp only [listAction, if_neg hs, if_neg ha, if_neg h1, if_pos h2]
            rw [if_pos (by simp [constCountStore, jsStrictNe0, jsEq0])]
            exact hfin _ _ _
          · have h0 : o.tagId = 0 ∧ o.ccNum = 0 := by omega
            simp only [listAction, if_neg hs, if_neg ha, if_neg h1, if_neg h2, if_pos h0]
            rw [if_neg (by simp [constCountStore, jsTruthy])]
            exact hfin _ _ _

lemma listAction_undef_count (o : ListOptions) (limit : Nat) (found : List Nat)
    (h : queryIssued o) (hf : found ≠ []) :
    ((listAction (constCountStore .undef found) o limit).response).isMessage = false := by
  have hfe : booksLenEq0 (.arr found) = false := by
    simp [booksLenEq0, hf]
  have hfin : ∀ (page : Int) (qs : List StoreQuery),
      ((listFinish limit page .undef (.arr found) qs).response).isMessage = false := by
    intro page qs
    unfold listFinish
    rw [if_neg (by simp [jsLe0, hfe])]
    simp [ListResponse.isMessage]
  have hfinObj : ∀ (page : Int) (qs : List StoreQuery),
      ((listFinish limit page .undef .obj qs).response).isMessage = false := by
    intro page qs
    unfold listFinish
    rw [if_neg (by simp [jsLe0, booksLenEq0])]
    simp [ListResponse.isMessage]
  by_cases hs : o.type = some "serie"
  · simp only [listAction, if_pos hs]
    rw [if_pos (by simp [constCountStore, jsStrictNe0, jsEq0])]
    exact hfin _ _
  · by_cases ha : o.type = some "author"
    · simp only [listAction, if_neg hs, if_pos ha]
      rw [if_pos (by simp [constCountStore, jsStrictNe0, jsEq0])]
      exact hfin _ _
    · rcases h with h | h | ⟨ht, hc⟩
      · exact absurd h hs
      · exact absurd h ha
      · by_cases h1 : 0 < o.tagId
        · simp only [listAction, if_neg hs, if_neg ha, if_pos h1]
          rw [if_pos (by simp [constCountStore, jsStrictNe0, jsEq0])]
          exact hfin _ _
        · by_cases h2 : 0 < o.ccNum
          · simp only [listAction, if_neg hs, if_neg ha, if_neg h1, if_pos h2]
            rw [if_pos (by simp [constCountStore, jsStrictNe0, jsEq0])]
            exact hfin _ _
          · have h0 : o.tagId = 0 ∧ o.ccNum = 0 := by omega
            simp only [listAction, if_neg hs, if_neg ha, if_neg h1, if_neg h2, if_pos h0]
            rw [if_neg (by simp [constCountStore, jsTruthy])]
            exact hfinObj _ _

/-- Claim C4, counterexample: `undefined` is a falsy, non-zero-shaped
count (it is not `=== 0`), yet a plain list request whose count query
returns `undefined` is answered with neither message: `undefined <= 0` is
false and `books.length === 0` is false for the initial `{}`, so the
request proceeds to render instead of reporting the access error. -/
theorem listAction_undef_count_no_error :
    jsTruthy JsNum.undef = false ∧ jsEq0 JsNum.undef = false ∧
      ((listAction (constCountStore .undef [4]) plainOptions 30).response).isMessage
        = false := by decide

/-- Claim C4 (amended): for every list request, a count of 0 yields the
user-facing no-results message (never an error); when a count query is
issued and returns null, the distinct access-error message is sent; but a
count of undefined (or NaN) bypasses the `count <= 0` check: when the
find result is non-empty (or, in the plain-search branch, always, since
the find is skipped and `books` stays `{}`), the response is not a
message at all. -/
theorem listAction_count_messages (o : ListOptions) (limit : Nat) (found : List Nat) :
    ((listAction (constCountStore (.num 0) found) o limit).response
        = .message noResultsMsg) ∧
    (queryIssued o →
      (listAction (constCountStore .null found) o limit).response
        = .message accessErrorMsg) ∧
    (queryIssued o → found ≠ [] →
      ((listAction (constCountStore .undef found) o limit).response).isMessage = false) :=
  ⟨listAction_zero_count o limit found,
    fun h => listAction_null_count o limit found h,
    fun h hf => listAction_undef_count o limit found h hf⟩

/-- Witness for C4 at the scenario options and a one-element find result. -/
theorem listAction_count_messages_witness :
    queryIssued tagCcOptions ∧
      ((listAction (constCountStore (.num 0) [4]) tagCcOptions 30).response
          = .message noResultsMsg) ∧
      ((listAction (constCountStore .null [4]) tagCcOptions 30).response
          = .message accessErrorMsg) ∧
      ((listAction (constCountStore .undef [4]) tagCcOptions 30).response).isMessage
        = false :=
  ⟨by decide,
    (listAction_count_messages tagCcOptions 30 [4]).1,
    (listAction_count_messages tagCcOptions 30 [4]).2.1 (by decide),
    (listAction_count_messages tagCcOptions 30 [4]).2.2 (by decide) (by decide)⟩

/- ================================================================
   Section 4: cover delivery and the thumbnail cache
   (`sendResizedCover`, `coverListAction`, `coverBookAction`)

   const targetDir = IMGCACHE + "/1" + ("0000" + fileData.bookId).slice(-5).substring(0, 2)
   (leading "/0" for the book/detail profile), file name `bookId + ".jpg"`,
   resize `{ height: 250 }` for the list profile and `{ width: 320 }` for
   the detail profile.  `sendResizedCover` serves the cached file when it
   exists and otherwise resizes the source into the cache and serves it.
   The file system is modelled as the list of existing cache files;
   `sharp(source).resize(d).toFile(target)` creates the target file.
   ================================================================ -/

/-- Decimal digit characters of `n` (JS `String(n)`); the fuel argument
makes the recursion structural and is always sufficient. -/
def digitsAux : Nat → Nat → List Char → List Char
  | 0, _, acc => acc
  | fuel + 1, n, acc =>
    let d := Char.ofNat (48 + n % 10)
    if n < 10 then d :: acc
    else digitsAux fuel (n / 10) (d :: acc)

/-- Decimal representation of `n` as characters. -/
def digitsOf (n : Nat) : List Char := digitsAux (n + 1) n []

/-- Decimal representation of `n` as a string. -/
def digitsStr (n : Nat) : String := String.mk (digitsOf n)

/-- `("0000" + bookId).slice(-5).substring(0, 2)` from the source. -/
def shardChars (id : Nat) : List Char :=
  let l := ['0', '0', '0', '0'] ++ digitsOf id
  (l.drop (l.length - 5)).take 2

/-- The shard as a string. -/
def shardStr (id : Nat) : String := String.mk (shardChars id)

/-- Spec reading: the two most-significant digits of the item id
zero-padded to 5 digits. -/
def specShardChars (id : Nat) : List Char :=
  (List.replicate (5 - (digitsOf id).length) '0' ++ digitsOf id).take 2

/-- Cache directory of the list profile: `IMGCACHE + "/1" + shard`. -/
def coverListDir (cacheRoot : String) (id : Nat) : String :=
  cacheRoot ++ "/1" ++ shardStr id

/-- Cache directory of the detail profile: `IMGCACHE + "/0" + shard`. -/
def coverBookDir (cacheRoot : String) (id : Nat) : String :=
  cacheRoot ++ "/0" ++ shardStr id

/-- Cache file name: `bookId + ".jpg"`. -/
def coverFileName (id : Nat) : String := digitsStr id ++ ".jpg"

/-- The `resize` argument: `{ height: n }` or `{ width: n }`. -/
inductive ResizeGeom where
  | height (n : Nat)
  | width (n : Nat)
deriving DecidableEq

/-- The thumbnail-cache file system: the set of existing cache files. -/
structure FsState where
  files : List String
deriving DecidableEq

/-- Result of `sendResizedCover`: the file system afterwards, whether the
resize ran (and with which geometry), and the file served. -/
structure CoverServeResult where
  fsAfter : FsState
  resizeInvoked : Bool
  resizeGeom : Option ResizeGeom
  servedPath : String
deriving DecidableEq

/-- `sendResizedCover` from the source: if the target file exists it is
served unchanged; otherwise the source image is resized into the target
file (creating it) and the new file is served.  The unused `source`
argument is kept for the signature. -/
def sendResizedCover (fsa : FsState) (_source targetDir targetFile : String)
    (rd : ResizeGeom) : CoverServeResult :=
  if (targetDir ++ "/" ++ targetFile) ∈ fsa.files then
    ⟨fsa, false, none, targetDir ++ "/" ++ targetFile⟩
  else
    ⟨⟨(targetDir ++ "/" ++ targetFile) :: fsa.files⟩, true, some rd,
      targetDir ++ "/" ++ targetFile⟩

/-- `getCoverData` result: `{ path, bookId }`. -/
structure CoverData where
  path : String
  bookId : Nat
deriving DecidableEq

/-- Outcome of a cover action: nothing sent, a (possibly fresh) cache
file served, or the 500 response of `errorHandler`. -/
inductive CoverOutcome where
  | noResponse (fs : FsState)
  | served (r : CoverServeResult)
  | error500 (actionName : String) (fs : FsState)
deriving DecidableEq

/-- `coverListAction` from the source: when `getCoverData` is falsy the
guard `if (fileData)` skips everything and no response is sent; otherwise
the list-profile cache file (height 250) is resolved and served. -/
def coverListAction (store : Nat → Option CoverData) (bookdir cacheRoot : String)
    (fsa : FsState) (id : Nat) : CoverOutcome :=
  match store id with
  | none => .noResponse fsa
  | some fd =>
    .served (sendResizedCover fsa (bookdir ++ "/" ++ fd.path ++ "/cover.jpg")
      (coverListDir cacheRoot fd.bookId) (coverFileName fd.bookId) (.height 250))

/-- `coverBookAction` from the source: it has no falsy guard, so a falsy
`getCoverData` result makes `fileData.path` throw; the catch block calls
`errorHandler`, which responds with status 500.  Otherwise the
detail-profile cache file (width 320) is resolved and served. -/
def coverBookAction (store : Nat → Option CoverData) (bookdir cacheRoot : String)
    (fsa : FsState) (id : Nat) : CoverOutcome :=
  match store id with
  | none => .error500 "coverBookAction" fsa
  | some fd =>
    .served (sendResizedCover fsa (bookdir ++ "/" ++ fd.path ++ "/cover.jpg")
      (coverBookDir cacheRoot fd.bookId) (coverFileName fd.bookId) (.width 320))

lemma digitsAux_length_ge : ∀ (fuel n : Nat) (acc : List Char),
    acc.length ≤ (digitsAux fuel n acc).length := by
  intro fuel
  induction fuel with
  | zero => intro n acc; simp [digitsAux]
  | succ fuel ih =>
    intro n acc
    simp only [digitsAux]
    by_cases h10 : n < 10
    · rw [if_pos h10]; simp
    · rw [if_neg h10]
      calc acc.length ≤ (Char.ofNat (48 + n % 10) :: acc).length := by simp
        _ ≤ _ := ih (n / 10) _

lemma digitsOf_length_pos (n : Nat) : 1 ≤ (digitsOf n).length := by
  unfold digitsOf
  simp only [digitsAux]
  by_cases h10 : n < 10
  · rw [if_pos h10]; simp
  · rw [if_neg h10]
    calc 1 = ([Char.ofNat (48 + n % 10)] : List Char).length := by simp
      _ ≤ _ := digitsAux_length_ge n (n / 10) _

lemma digitsAux_length_le : ∀ (fuel n k : Nat) (acc : List Char), 0 < k → n < 10 ^ k →
    (digitsAux fuel n acc).length ≤ k + acc.length := by
  intro fuel
  induction fuel with
  | zero => intro n k acc hk _; simp [digitsAux]
  | succ fuel ih =>
    intro n k acc hk hn
    simp only [digitsAux]
    by_cases h10 : n < 10
    · rw [if_pos h10]; simp; omega
    · rw [if_neg h10]
      have hk2 : 2 ≤ k := by
        by_contra hlt
        have hk1 : k = 1 := by omega
        subst hk1
        simp at hn
        omega
      have hdiv : n / 10 < 10 ^ (k - 1) := by
        rw [Nat.div_lt_iff_lt_mul (by norm_num)]
        calc n < 10 ^ k := hn
          _ = 10 ^ (k - 1) * 10 := by
            rw [← pow_succ]
            congr 1
            omega
      have := ih (n / 10) (k - 1) (Char.ofNat (48 + n % 10) :: acc) (by omega) hdiv
      simp only [List.length_cons] at this
      omega

lemma digitsOf_length_le5 {id : Nat} (h : id < 100000) : (digitsOf id).length ≤ 5 := by
  have h5 : id < 10 ^ 5 := by
    have hp : (10 : Nat) ^ 5 = 100000 := by norm_num
    omega
  have := digitsAux_length_le (id + 1) id 5 [] (by norm_num) h5
  simpa using this

lemma shard_pad_eq : ∀ (ds : List Char), 1 ≤ ds.length → ds.length ≤ 5 →
    ((['0', '0', '0', '0'] ++ ds).drop ((['0', '0', '0', '0'] ++ ds).length - 5)).take 2
      = (List.replicate (5 - ds.length) '0' ++ ds).take 2 := by
  intro ds h1 h5
  rcases ds with _ | ⟨a, _ | ⟨b, _ | ⟨c, _ | ⟨d, _ | ⟨e, _ | ⟨f, rest⟩⟩⟩⟩⟩⟩
  · simp at h1
  · rfl
  · rfl
  · rfl
  · rfl
  · rfl
  · simp only [List.length_cons] at h5
    omega

lemma sendResizedCover_hit {fsa : FsState} {src dir file : String} {rd : ResizeGeom}
    (h : dir ++ "/" ++ file ∈ fsa.files) :
    sendResizedCover fsa src dir file rd = ⟨fsa, false, none, dir ++ "/" ++ file⟩ := by
  unfold sendResizedCover
  rw [if_pos h]

lemma sendResizedCover_miss {fsa : FsState} {src dir file : String} {rd : ResizeGeom}
    (h : dir ++ "/" ++ file ∉ fsa.files) :
    sendResizedCover fsa src dir file rd
      = ⟨⟨(dir ++ "/" ++ file) :: fsa.files⟩, true, some rd, dir ++ "/" ++ file⟩ := by
  unfold sendResizedCover
  rw [if_neg h]

lemma sendResizedCover_mem (fsa : FsState) (src dir file : String) (rd : ResizeGeom) :
    (dir ++ "/" ++ file) ∈ (sendResizedCover fsa src dir file rd).fsAfter.files := by
  by_cases h : (dir ++ "/" ++ file) ∈ fsa.files
  · rw [sendResizedCover_hit h]
    exact h
  · rw [sendResizedCover_miss h]
    exact List.mem_cons_self _ _

/-- Claim C5: for every cover request whose cover data resolves: if the
size-specific target cache file exists it is served unchanged without
invoking resizing and without touching the file system; if it is absent,
the source cover is resized per the profile geometry (list: height 250,
detail: width 320) into the cache path and served, creating exactly that
one file; and a second access after any first access serves the same file
without re-invoking resize. -/
theorem cover_cache_behavior (store : Nat → Option CoverData)
    (bookdir cacheRoot : String) (fsa : FsState) (id : Nat) (fd : CoverData)
    (h : store id = some fd) :
    (coverListDir cacheRoot fd.bookId ++ "/" ++ coverFileName fd.bookId ∈ fsa.files →
      coverListAction store bookdir cacheRoot fsa id = .served
        ⟨fsa, false, none,
          coverListDir cacheRoot fd.bookId ++ "/" ++ coverFileName fd.bookId⟩) ∧
    (coverListDir cacheRoot fd.bookId ++ "/" ++ coverFileName fd.bookId ∉ fsa.files →
      coverListAction store bookdir cacheRoot fsa id = .served
        ⟨⟨(coverListDir cacheRoot fd.bookId ++ "/" ++ coverFileName fd.bookId) ::
            fsa.files⟩, true, some (.height 250),
          coverListDir cacheRoot fd.bookId ++ "/" ++ coverFileName fd.bookId⟩) ∧
    (∀ r, coverListAction store bookdir cacheRoot fsa id = .served r →
      coverListAction store bookdir cacheRoot r.fsAfter id = .served
        ⟨r.fsAfter, false, none,
          coverListDir cacheRoot fd.bookId ++ "/" ++ coverFileName fd.bookId⟩) ∧
    (coverBookDir cacheRoot fd.bookId ++ "/" ++ coverFileName fd.bookId ∈ fsa.files →
      coverBookAction store bookdir cacheRoot fsa id = .served
        ⟨fsa, false, none,
          coverBookDir cacheRoot fd.bookId ++ "/" ++ coverFileName fd.bookId⟩) ∧
    (coverBookDir cacheRoot fd.bookId ++ "/" ++ coverFileName fd.bookId ∉ fsa.files →
      coverBookAction store bookdir cacheRoot fsa id = .served
        ⟨⟨(coverBookDir cacheRoot fd.bookId ++ "/" ++ coverFileName fd.bookId) ::
            fsa.files⟩, true, some (.width 320),
          coverBookDir cacheRoot fd.bookId ++ "/" ++ coverFileName fd.bookId⟩) ∧
    (∀ r, coverBookAction store bookdir cacheRoot fsa id = .served r →
      coverBookAction store bookdir cacheRoot r.fsAfter id = .served
        ⟨r.fsAfter, false, none,
          coverBookDir cacheRoot fd.bookId ++ "/" ++ coverFileName fd.bookId⟩) := by
  have hL : ∀ fs : FsState, coverListAction store bookdir cacheRoot fs id
      = .served (sendResizedCover fs (bookdir ++ "/" ++ fd.path ++ "/cover.jpg")
          (coverListDir cacheRoot fd.bookId) (coverFileName fd.bookId) (.height 250)) := by
    intro fs
    unfold coverListAction
    rw [h]
  have hB : ∀ fs : FsState, coverBookAction store bookdir cacheRoot fs id
      = .served (sendResizedCover fs (bookdir ++ "/" ++ fd.path ++ "/cover.jpg")
          (coverBookDir cacheRoot fd.bookId) (coverFileName fd.bookId) (.width 320)) := by
    intro fs
    unfold coverBookAction
    rw [h]
  refine ⟨?_, ?_, ?_, ?_, ?_, ?_⟩
  · intro hmem
    rw [hL fsa, sendResizedCover_hit hmem]
  · intro hmem
    rw [hL fsa, sendResizedCover_miss hmem]
  · intro r hr
    rw [hL fsa] at hr
    have hr' : sendResizedCover fsa (bookdir ++ "/" ++ fd.path ++ "/cover.jpg")
        (coverListDir cacheRoot fd.bookId) (coverFileName fd.bookId) (.height 250) = r := by
      injection hr
    have hmem : coverListDir cacheRoot fd.bookId ++ "/" ++ coverFileName fd.bookId
        ∈ r.fsAfter.files := by
      rw [← hr']
      exact sendResizedCover_mem _ _ _ _ _
    rw [hL r.fsAfter, sendResizedCover_hit hmem]
  · intro hmem
    rw [hB fsa, sendResizedCover_hit hmem]
  · intro hmem
    rw [hB fsa, sendResizedCover_miss hmem]
  · intro r hr
    rw [hB fsa] at hr
    have hr' : sendResizedCover fsa (bookdir ++ "/" ++ fd.path ++ "/cover.jpg")
        (coverBookDir cacheRoot fd.bookId) (coverFileName fd.bookId) (.width 320) = r := by
      injection hr
    have hmem : coverBookDir cacheRoot fd.bookId ++ "/" ++ coverFileName fd.bookId
        ∈ r.fsAfter.files := by
      rw [← hr']
      exact sendResizedCover_mem _ _ _ _ _
    rw [hB r.fsAfter, sendResizedCover_hit hmem]

/-- A cover store that resolves every id to the same cover data. -/
def covStoreW : Nat → Option CoverData := fun _ => some ⟨"Rowling/HP1", 42⟩

/-- Witness for C5: item 42 on an empty cache. -/
theorem cover_cache_behavior_witness :
    (coverListDir "Cache" 42 ++ "/" ++ coverFileName 42 ∈ (⟨[]⟩ : FsState).files →
      coverListAction covStoreW "Books" "Cache" ⟨[]⟩ 7 = .served
        ⟨⟨[]⟩, false, none, coverListDir "Cache" 42 ++ "/" ++ coverFileName 42⟩) ∧
    (coverListDir "Cache" 42 ++ "/" ++ coverFileName 42 ∉ (⟨[]⟩ : FsState).files →
      coverListAction covStoreW "Books" "Cache" ⟨[]⟩ 7 = .served
        ⟨⟨[coverListDir "Cache" 42 ++ "/" ++ coverFileName 42]⟩, true,
          some (.height 250), coverListDir "Cache" 42 ++ "/" ++ coverFileName 42⟩) ∧
    (∀ r, coverListAction covStoreW "Books" "Cache" ⟨[]⟩ 7 = .served r →
      coverListAction covStoreW "Books" "Cache" r.fsAfter 7 = .served
        ⟨r.fsAfter, false, none, coverListDir "Cache" 42 ++ "/" ++ coverFileName 42⟩) ∧
    (coverBookDir "Cache" 42 ++ "/" ++ coverFileName 42 ∈ (⟨[]⟩ : FsState).files →
      coverBookAction covStoreW "Books" "Cache" ⟨[]⟩ 7 = .served
        ⟨⟨[]⟩, false, none, coverBookDir "Cache" 42 ++ "/" ++ coverFileName 42⟩) ∧
    (coverBookDir "Cache" 42 ++ "/" ++ coverFileName 42 ∉ (⟨[]⟩ : FsState).files →
      coverBookAction covStoreW "Books" "Cache" ⟨[]⟩ 7 = .served
        ⟨⟨[coverBookDir "Cache" 42 ++ "/" ++ coverFileName 42]⟩, true,
          some (.width 320), coverBookDir "Cache" 42 ++ "/" ++ coverFileName 42⟩) ∧
    (∀ r, coverBookAction covStoreW "Books" "Cache" ⟨[]⟩ 7 = .served r →
      coverBookAction covStoreW "Books" "Cache" r.fsAfter 7 = .served
        ⟨r.fsAfter, false, none, coverBookDir "Cache" 42 ++ "/" ++ coverFileName 42⟩) :=
  cover_cache_behavior covStoreW "Books" "Cache" ⟨[]⟩ 7 ⟨"Rowling/HP1", 42⟩ rfl

/-- Claim C6, counterexample: for the six-digit id 123456 the source
shards on the two leading characters of the LAST five digits ("23"),
while the two most-significant digits of the id are "12". -/
theorem shard_large_id_mismatch :
    shardChars 123456 = ['2', '3'] ∧ specShardChars 123456 = ['1', '2'] ∧
      shardChars 123456 ≠ specShardChars 123456 := by decide

/-- Claim C6 (amended): for every item id below 100000 (at most five
digits) the cache path is deterministic and matches the spec: the shard
is the two most-significant digits of the item id zero-padded to 5
digits, the directory is cacheRoot/{1|0}{shard} for the list/detail
profile, and the file name is the id followed by ".jpg"; in particular id
42 with the list profile maps to directory "Cache/100" and file
"42.jpg".  (For ids of six or more digits the source uses the last five
digits instead.) -/
theorem cover_cache_path_spec :
    (∀ id : Nat, id < 100000 →
      shardChars id = specShardChars id ∧
      (∀ cacheRoot,
        coverListDir cacheRoot id = cacheRoot ++ "/1" ++ String.mk (specShardChars id) ∧
        coverBookDir cacheRoot id = cacheRoot ++ "/0" ++ String.mk (specShardChars id)) ∧
      coverFileName id = digitsStr id ++ ".jpg") ∧
    shardChars 42 = ['0', '0'] ∧ coverListDir "Cache" 42 = "Cache/100" ∧
    coverFileName 42 = "42.jpg" := by
  refine ⟨?_, by decide, by decide, by decide⟩
  intro id h
  have hshard : shardChars id = specShardChars id := by
    unfold shardChars specShardChars
    exact shard_pad_eq (digitsOf id) (digitsOf_length_pos id) (digitsOf_length_le5 h)
  refine ⟨hshard, ?_, rfl⟩
  intro cacheRoot
  constructor
  · unfold coverListDir shardStr
    rw [hshard]
  · unfold coverBookDir shardStr
    rw [hshard]

/-- Witness for C6 at id 42. -/
theorem cover_cache_path_spec_witness :
    (42 : Nat) < 100000 ∧
      (shardChars 42 = specShardChars 42 ∧
        (∀ cacheRoot,
          coverListDir cacheRoot 42 = cacheRoot ++ "/1" ++ String.mk (specShardChars 42) ∧
          coverBookDir cacheRoot 42 = cacheRoot ++ "/0" ++ String.mk (specShardChars 42)) ∧
        coverFileName 42 = digitsStr 42 ++ ".jpg") :=
  ⟨by decide, cover_cache_path_spec.1 42 (by decide)⟩

/-- Claim C10: when the catalog store returns no cover data for the
requested id, the list-profile cover action sends no response at all,
while the detail-profile cover action raises and answers with status 500
through the uniform error handler. -/
theorem cover_missing_data_responses (store : Nat → Option CoverData)
    (bookdir cacheRoot : String) (fsa : FsState) (id : Nat) (h : store id = none) :
    coverListAction store bookdir cacheRoot fsa id = .noResponse fsa ∧
    coverBookAction store bookdir cacheRoot fsa id
      = .error500 "coverBookAction" fsa := by
  constructor
  · unfold coverListAction
    rw [h]
  · unfold coverBookAction
    rw [h]

/-- A cover store with no cover data at all. -/
def emptyCoverStore : Nat → Option CoverData := fun _ => none

/-- Witness for C10 at id 9 on an empty cache. -/
theorem cover_missing_data_responses_witness :
    emptyCoverStore 9 = none ∧
      (coverListAction emptyCoverStore "Books" "Cache" ⟨[]⟩ 9 = .noResponse ⟨[]⟩ ∧
        coverBookAction emptyCoverStore "Books" "Cache" ⟨[]⟩ 9
          = .error500 "coverBookAction" ⟨[]⟩) :=
  ⟨rfl, cover_missing_data_responses emptyCoverStore "Books" "Cache" ⟨[]⟩ 9 rfl⟩
